import Mathlib

/-!
# KSET overlay: the `Socket` hub (`src/lib/Socket.js`)

A shallow embedding of the `Socket` class: the bounded message list, the
rate-limited `sendMessage`, the per-connection request handlers and the
re-verification guard installed by `_registerAdmin`.

JavaScript strings are Lean strings; `length` counts UTF-16 code units and
`trim` strips the ECMAScript white space and line terminator characters.
JavaScript values that travel through settings are the small domain `JVal`
(integers stand for numbers; fractions and objects are outside the model).
An object used as a map is the list of its own properties in insertion
order. The registry `this.events` and the object `getCookies` builds start
as a plain `{}` and are read and written under arbitrary names, so there the
members inherited from `Object.prototype` are modelled: a read of such a
name yields the inherited member, and an assignment of `__proto__` goes to
the inherited setter. Settings objects are taken to have no own property of
such a name, and the reordering of integer-like keys is outside the model.
Mutable fields of the class become fields of the `Socket` structure, and a
method returns the new state together with its result and what it emitted.
Clock, identifier source and token verification are read from a `World`.
-/

namespace KSET

/-! ## JavaScript strings -/

/-- ECMAScript `WhiteSpace` and `LineTerminator` code points, the characters
`String.prototype.trim` removes. -/
def isJsWhitespace (c : Char) : Bool :=
  let n := c.toNat
  n == 0x09 || n == 0x0A || n == 0x0B || n == 0x0C || n == 0x0D || n == 0x20 ||
  n == 0xA0 || n == 0x1680 || (0x2000 ≤ n && n ≤ 0x200A) || n == 0x2028 ||
  n == 0x2029 || n == 0x202F || n == 0x205F || n == 0x3000 || n == 0xFEFF

/-- Trimming on a list of characters: `text.trim()`. -/
def jsTrimChars (cs : List Char) : List Char :=
  ((cs.dropWhile isJsWhitespace).reverse.dropWhile isJsWhitespace).reverse

/-- The method `text.trim()`. -/
def jsTrim (s : String) : String :=
  String.mk (jsTrimChars s.data)

/-- Number of UTF-16 code units of a list of characters. -/
def jsLengthChars : List Char → Nat
  | [] => 0
  | c :: cs => (if c.toNat < 0x10000 then 1 else 2) + jsLengthChars cs

/-- The property `text.length`: UTF-16 code units. -/
def jsLength (s : String) : Nat :=
  jsLengthChars s.data

/-! ## JavaScript values -/

/-- Values carried by settings and by the `set settings` payload. -/
inductive JVal where
  | undefined
  | null
  | bool (b : Bool)
  | num (n : Int)
  | nan
  | str (s : String)
deriving DecidableEq, Repr

/-- Strict equality `a === b`: `NaN` is not equal to itself. -/
def JVal.strictEq (a b : JVal) : Bool :=
  match a, b with
  | .nan, _ => false
  | _, .nan => false
  | x, y => decide (x = y)

/-- An object with string keys, as the list of its entries in enumeration
order. -/
abbrev JObject := List (String × JVal)

/-- Property read `obj[k]`, `undefined` when the key is absent. -/
def JObject.get (o : JObject) (k : String) : JVal :=
  match o.find? (fun e => e.1 == k) with
  | some e => e.2
  | none => .undefined

/-- One step of `Object.assign`: set key `k` to `v`, in place when the key
exists and at the end otherwise. -/
def JObject.set : JObject → String → JVal → JObject
  | [], k, v => [(k, v)]
  | (k', v') :: rest, k, v =>
    if k' = k then (k', v) :: rest else (k', v') :: JObject.set rest k v

/-- The call `Object.assign(target, source)`. -/
def JObject.assign (target source : JObject) : JObject :=
  source.foldl (fun acc e => JObject.set acc e.1 e.2) target

/-! ## Records -/

/-- The result of `Message#inspect()`. -/
structure MessageRecord where
  id : String
  text : String
  date : Nat
deriving DecidableEq, Repr

/-- The result of `Notification#inspect()`. -/
structure NotificationRecord where
  id : String
  title : JVal
  text : JVal
  date : Nat
deriving DecidableEq, Repr

/-- What the process reads from outside the class during one call: the
clock; `new Message(text).inspect()`, with the argument of `withMaxLength`
when that call is chained in; `new Notification(...).inspect()`
given text and title; and whether `jwt.verify(token, secret)` succeeds. -/
structure World where
  now : Nat
  newMessage : String → Option JVal → MessageRecord
  newNotification : JVal → JVal → NotificationRecord
  jwtVerify : Option String → JVal → Bool

/-! ## RateLimiter (collaborator `./RateLimiter`) -/

/-- The value of `cookies.id`: `none` when the cookie is absent. -/
abbrev Identity := Option String

/-- Truthiness of an identity, the test behind `!id`: absent and empty are
falsy. -/
def Identity.truthy : Identity → Bool
  | none => false
  | some i => i != ""

/-- One entry of the limiter. -/
structure RateLimitEntry where
  identity : Identity
  windowStart : Nat
  count : Nat
deriving DecidableEq, Repr

/-- The result of `entry.inspect()`. -/
structure EntrySnapshot where
  identity : Identity
  windowStart : Nat
  count : Nat
  can : Bool
deriving DecidableEq, Repr

/-- Modelled from the spec: the `RateLimiter` class is not part of the
sources at hand. A fixed-window limiter holding its interval length, its
quota and one entry per identity. -/
structure RateLimiter where
  intervalLength : JVal
  quota : JVal
  entries : List RateLimitEntry
deriving DecidableEq, Repr

/-- Value of a run of decimal digits read after the value `acc`; `none` when
a character is not a digit. -/
def readDigits (acc : Nat) : List Char → Option Nat
  | [] => some acc
  | c :: cs =>
    if 48 ≤ c.toNat && c.toNat ≤ 57 then readDigits (acc * 10 + (c.toNat - 48)) cs else none

/-- A signed decimal integer literal; `none` when the characters are not
one. -/
def readInteger : List Char → Option Int
  | [] => none
  | c :: cs =>
    if c = '-' then
      if cs.isEmpty then none else (readDigits 0 cs).map (fun n => -(n : Int))
    else if c = '+' then
      if cs.isEmpty then none else (readDigits 0 cs).map (fun n => (n : Int))
    else (readDigits 0 (c :: cs)).map (fun n => (n : Int))

/-- Numeric reading of a configuration value (`ToNumber` on the modelled
values: a string reads as the integer literal it holds between white space,
and the empty string as zero); `none` stands for `NaN`. -/
def JVal.toNum? : JVal → Option Int
  | .num n => some n
  | .bool b => some (if b then 1 else 0)
  | .null => some 0
  | .str s => if (jsTrimChars s.data).isEmpty then some 0 else readInteger (jsTrimChars s.data)
  | .undefined => none
  | .nan => none

/-- The comparison `n < v` with a number on the left; false against `NaN`. -/
def JVal.gtInt (v : JVal) (n : Int) : Bool :=
  match v.toNum? with
  | some m => decide (n < m)
  | none => false

namespace RateLimiter

/-- Modelled from the spec: `new RateLimiter(intervalLength, quota)` starts
with no entry. -/
def create (intervalLength quota : JVal) : RateLimiter :=
  { intervalLength := intervalLength, quota := quota, entries := [] }

/-- Modelled from the spec: `get(identity)`, read-only, does not create. -/
def get (rl : RateLimiter) (id : Identity) : Option RateLimitEntry :=
  rl.entries.find? (fun e => e.identity == id)

/-- Modelled from the spec: `getOrCreate(identity)`; when no entry exists one
is created with `count = 0` and `windowStart = now` and kept. -/
def getOrCreate (rl : RateLimiter) (now : Nat) (id : Identity) :
    RateLimitEntry × RateLimiter :=
  match rl.get id with
  | some e => (e, rl)
  | none =>
    let e : RateLimitEntry := { identity := id, windowStart := now, count := 0 }
    (e, { rl with entries := rl.entries ++ [e] })

/-- Modelled from the spec: the entry's window is still running when
`now - windowStart < intervalLength`. -/
def inWindow (rl : RateLimiter) (now : Nat) (e : RateLimitEntry) : Bool :=
  rl.intervalLength.gtInt ((now : Int) - (e.windowStart : Int))

/-- Modelled from the spec: `entry.can`; inside the window `count < quota`,
and true once the window has expired. -/
def can (rl : RateLimiter) (now : Nat) (e : RateLimitEntry) : Bool :=
  if rl.inWindow now e then rl.quota.gtInt (e.count : Int) else true

/-- Modelled from the spec: `update(entry)` records one consumed attempt;
the count grows inside the window, and an expired window restarts at `now`
with `count = 1`. -/
def update (rl : RateLimiter) (now : Nat) (e : RateLimitEntry) : RateLimiter :=
  let e' : RateLimitEntry :=
    if rl.inWindow now e then { e with count := e.count + 1 }
    else { e with windowStart := now, count := 1 }
  { rl with entries := rl.entries.map (fun x => if x.identity = e.identity then e' else x) }

/-- Modelled from the spec: `updatePerTimeframe(newQuota)` returns the
limiter reconfigured with the new quota, its entries kept. -/
def updatePerTimeframe (rl : RateLimiter) (newQuota : JVal) : RateLimiter :=
  { rl with quota := newQuota }

/-- Modelled from the spec: `entry.inspect()`. -/
def inspect (rl : RateLimiter) (now : Nat) (e : RateLimitEntry) : EntrySnapshot :=
  { identity := e.identity, windowStart := e.windowStart, count := e.count,
    can := rl.can now e }

end RateLimiter

/-! ## Settings (collaborator `./settings`) -/

/-- Modelled from the spec: the `settings` module is not part of the sources
at hand. A process-wide object holding the current values (`_args`) and,
for every recognized key, its coercion (`types`). -/
structure Settings where
  _args : JObject
  types : List (String × (JVal → JVal))

namespace Settings

/-- Modelled from the spec: property read `settings[k]`, the current value
of setting `k`. -/
def get (st : Settings) (k : String) : JVal :=
  st._args.get k

/-- Modelled from the spec: `settings.inspect()`, the snapshot of all
settings, the verification key `secret` among them. -/
def inspect (st : Settings) : JObject :=
  st._args

/-- The call `types[k](v)`. -/
def coerce (st : Settings) (k : String) (v : JVal) : JVal :=
  match st.types.find? (fun t => t.1 == k) with
  | some t => t.2 v
  | none => .undefined

end Settings

/-! ## The Socket class -/

/-- What a listener or a client receives. -/
inductive Payload where
  | message (m : MessageRecord)
  | entry (e : EntrySnapshot)
  | id (id : String)
  | settings (o : JObject)
  | value (v : JVal)
  | notification (n : NotificationRecord)
deriving DecidableEq, Repr

/-- An outbound event: `io.emit(name, data)` reaches every connection,
`io.to(room).emit(name, data)` the connections of one room. -/
inductive Emit where
  | all (name : String) (data : Payload)
  | room (room : Identity) (name : String) (data : Payload)
deriving DecidableEq, Repr

/-- A function registered with `on`. The class itself registers one, in its
constructor: it replaces the limiter by `updatePerTimeframe` of the event's
datum (a datum that is not a plain value reads as not-a-number, as
`undefined` does). Listeners registered by other code are opaque and leave
the fields of the class alone. -/
inductive Listener where
  | updateRateLimiter
  | external (tag : Nat)
deriving DecidableEq, Repr

/-- The fields of a `Socket` instance, with the `settings` singleton it
reads through `this.settings`. -/
structure Socket where
  messages : List MessageRecord
  rateLimiter : RateLimiter
  events : List (String × List Listener)
  settings : Settings

/-- What a call did besides changing fields: outbound events, internal
events fired by `_event`, and listener invocations, each in order. -/
structure Effects where
  emits : List Emit
  fired : List (String × Payload)
  calls : List (Listener × Payload)
deriving DecidableEq, Repr

/-- No effect. -/
def Effects.none : Effects :=
  { emits := [], fired := [], calls := [] }

/-- Effects in sequence. -/
def Effects.append (a b : Effects) : Effects :=
  { emits := a.emits ++ b.emits, fired := a.fired ++ b.fired, calls := a.calls ++ b.calls }

namespace Socket

/-- Static getter `maxMessagesLength`. -/
def maxMessagesLength : Nat := 10

/-- Getter `maxMessageLength`. -/
def maxMessageLength (s : Socket) : JVal :=
  s.settings.get "maxMessageLength"

/-- Getter `secret`. -/
def secret (s : Socket) : JVal :=
  s.settings.get "secret"

/-- The names of the members a plain object inherits from
`Object.prototype`. -/
def objectPrototypeNames : List String :=
  ["constructor", "__defineGetter__", "__defineSetter__", "hasOwnProperty",
   "__lookupGetter__", "__lookupSetter__", "isPrototypeOf", "propertyIsEnumerable",
   "toString", "valueOf", "__proto__", "toLocaleString"]

/-- The listeners stored under `event` as an own property of `this.events`,
none when there is no such property. -/
def listeners (s : Socket) (event : String) : List Listener :=
  match s.events.find? (fun e => e.1 == event) with
  | some e => e.2
  | none => []

/-- Method `_eventList(event)`: the value of `this.events[event]`, by
default the empty list. When `this.events` has no own property `event` and
`event` names a member of `Object.prototype`, the read yields that member,
the default is not taken and the result is not a list: `none`. -/
def _eventList (s : Socket) (event : String) : Option (List Listener) :=
  if objectPrototypeNames.contains event && (s.events.find? (fun e => e.1 == event)).isNone then
    none
  else some (s.listeners event)

/-- Assignment `events[event] = fns`. -/
def setEventList : List (String × List Listener) → String → List Listener →
    List (String × List Listener)
  | [], k, v => [(k, v)]
  | (k', v') :: rest, k, v =>
    if k' = k then (k', v) :: rest else (k', v') :: setEventList rest k v

/-- Method `on(event, fn)`; `none` when it raises: the spread of an
`eventList` that is not a list is a TypeError. -/
def on' (s : Socket) (event : String) (fn : Listener) : Option Socket :=
  match s._eventList event with
  | none => none
  | some eventList => some { s with events := setEventList s.events event (eventList ++ [fn]) }

/-- Running one listener on the datum of an event. -/
def runListener (s : Socket) (fn : Listener) (data : Payload) : Socket :=
  match fn, data with
  | .updateRateLimiter, .value messagesPerInterval =>
    { s with rateLimiter := s.rateLimiter.updatePerTimeframe messagesPerInterval }
  | .updateRateLimiter, _ =>
    { s with rateLimiter := s.rateLimiter.updatePerTimeframe .undefined }
  | .external _, _ => s

/-- The loop `forEach((fn) => fn(...data))` of `_event` over the listeners
`fns` of `event`. -/
def dispatch (s : Socket) (fns : List Listener) (event : String) (data : Payload) :
    Socket × Effects :=
  (fns.foldl (fun acc fn => runListener acc fn data) s,
    { emits := [], fired := [(event, data)], calls := fns.map (fun fn => (fn, data)) })

/-- Method `_event(event, data)`: every listener under `event`, in order;
`none` when it raises: a value that is not a list has no `forEach`. -/
def _event (s : Socket) (event : String) (data : Payload) : Option (Socket × Effects) :=
  match s._eventList event with
  | none => none
  | some fns => some (s.dispatch fns event data)

/-- Method `send(name, data)`: `io.emit(name, data)`. -/
def send (name : String) (data : Payload) : Effects :=
  { emits := [.all name data], fired := [], calls := [] }

/-- The constructor: three greeting records, a limiter configured from the
settings, and the listener on `settings change:messagesPerInterval`, a name
under which `on` does not raise. -/
def new (settings : Settings) (w : World) : Socket :=
  let s : Socket :=
    { messages := ["Pošaljite poruku!", "KSET je lit", "KOMP je najbolja sekcija"].map
        (fun text => w.newMessage text none)
      rateLimiter := RateLimiter.create (settings.get "messagesIntervalLength")
        (settings.get "messagesPerInterval")
      events := []
      settings := settings }
  ( s.on' "settings change:messagesPerInterval" .updateRateLimiter).getD s

/-- Method `addMessage(text)`: put the new record in front, then drop the
last record when the list got longer than `maxMessagesLength`. -/
def addMessage (s : Socket) (w : World) (text : String) : MessageRecord × Socket :=
  let message := w.newMessage text (some s.maxMessageLength)
  let unshifted := message :: s.messages
  let messages :=
    if unshifted.length > maxMessagesLength then unshifted.dropLast else unshifted
  (message, { s with messages := messages })

/-- Method `sendMessage(id, text)`: the returned flag, the new state and the
effects. -/
def sendMessage (s : Socket) (w : World) (id : Identity) (text : String) :
    Bool × Socket × Effects :=
  let text := jsTrim text
  if jsLength text < 2 then
    (false, s, Effects.none)
  else
    let added := s.addMessage w text
    let message := added.1
    let s1 := added.2
    if !id.truthy then
      (true, s1, send "new message" (.message message))
    else
      let found := s1.rateLimiter.getOrCreate w.now id
      let entry := found.1
      let s2 : Socket := { s1 with rateLimiter := found.2 }
      if !s2.rateLimiter.can w.now entry then
        (false, s2, Effects.none)
      else
        let s3 : Socket := { s2 with rateLimiter := s2.rateLimiter.update w.now entry }
        (true, s3, send "new message" (.message message))

/-- The array method `findIndex`: the first index whose element satisfies
`p`, or `-1`. -/
def findIndex {α : Type} (p : α → Bool) (l : List α) : Int :=
  if l.findIdx p < l.length then (l.findIdx p : Int) else -1

/-- Method `_editMessage(message)`. -/
def _editMessage (s : Socket) (message : MessageRecord) : Bool × Socket :=
  let messageIndex := findIndex (fun m => m.id == message.id) s.messages
  if messageIndex < 0 then
    (false, s)
  else
    (true, { s with messages := s.messages.set messageIndex.toNat message })

/-- Method `_deleteMessage(id)`. -/
def _deleteMessage (s : Socket) (id : String) : List MessageRecord × Socket :=
  let newMessages := s.messages.filter (fun message => message.id != id)
  (newMessages, { s with messages := newMessages })

/-- Method `getMessages()`: a reversed copy of the list. -/
def getMessages (s : Socket) : List MessageRecord :=
  s.messages.reverse

end Socket

/-! ## Connections and requests -/

/-- The cookies of a connection that the class reads. -/
structure Cookies where
  id : Identity
  auth : Option String
deriving DecidableEq, Repr

/-- A connected socket: its cookies, and whether `_registerAdmin` ran for
it, which joins the room `admin`, installs the re-verification guard with
`socket.use` and registers the admin handlers. -/
structure Connection where
  cookies : Cookies
  admin : Bool
deriving DecidableEq, Repr

/-- The rooms a connection has joined. -/
def Connection.rooms (c : Connection) : List Identity :=
  if c.admin then [some "admin", c.cookies.id] else [c.cookies.id]

/-- An inbound event with its arguments. -/
inductive Request where
  | addMessage (text : String)
  | meta
  | getMessages
  | addMessageAdmin (text : String)
  | editMessage (message : MessageRecord)
  | deleteMessage (id : String)
  | getSettings
  | setSettings (newSettings : JObject)
  | addNotification (title text : JVal)
deriving DecidableEq, Repr

/-- The events whose handlers `_registerAdmin` registers. -/
def Request.adminOnly : Request → Bool
  | .addMessage _ => false
  | .meta => false
  | _ => true

/-- The arguments passed to the acknowledgment callback `cb`. -/
inductive Ack where
  | sent (sent : Bool) (entry : EntrySnapshot)
  | entry (e : EntrySnapshot)
  | messages (l : List MessageRecord)
  | bool (b : Bool)
  | id (id : String)
  | settings (o : JObject)
  | notification (n : NotificationRecord)
deriving DecidableEq, Repr

/-- How the handling of an inbound event ended: the handler called back; the
guard passed an error to `next`, so no handler ran; no handler is registered
for the event on this connection; or the handler raised. -/
inductive Outcome where
  | ack (a : Ack)
  | refused (error : String)
  | unhandled
  | raised (error : String)
deriving DecidableEq, Repr

namespace Socket

/-- The connection callback of `register`: the credential is verified
against the current secret and `_registerAdmin` runs on success; the socket
joins the room of its identity either way. -/
def connect (s : Socket) (w : World) (cookies : Cookies) : Connection :=
  { cookies := cookies, admin := w.jwtVerify cookies.auth s.secret }

/-- Handler of `add message`. -/
def onAddMessage (s : Socket) (w : World) (cookies : Cookies) (text : String) :
    Socket × Outcome × Effects :=
  let id := cookies.id
  let r := s.sendMessage w id text
  let sent := r.1
  let s1 := r.2.1
  match s1.rateLimiter.get id with
  | none => (s1, .raised "TypeError", r.2.2)
  | some e =>
    let entry := s1.rateLimiter.inspect w.now e
    (s1, .ack (.sent sent entry),
      r.2.2.append { emits := [.room id "meta" (.entry entry)], fired := [], calls := [] })

/-- Handler of `meta`. -/
def onMeta (s : Socket) (w : World) (cookies : Cookies) : Socket × Outcome × Effects :=
  let id := cookies.id
  let found := s.rateLimiter.getOrCreate w.now id
  let s1 : Socket := { s with rateLimiter := found.2 }
  (s1, .ack (.entry (s1.rateLimiter.inspect w.now found.1)), Effects.none)

/-- Handler of `get messages`. -/
def onGetMessages (s : Socket) : Socket × Outcome × Effects :=
  (s, .ack (.messages s.getMessages), Effects.none)

/-- Handler of `add message admin`. -/
def onAddMessageAdmin (s : Socket) (w : World) (text : String) :
    Socket × Outcome × Effects :=
  let r := s.sendMessage w none text
  (r.2.1, .ack (.bool r.1), r.2.2)

/-- Handler of `edit message`. -/
def onEditMessage (s : Socket) (message : MessageRecord) : Socket × Outcome × Effects :=
  let r := s._editMessage message
  let success := r.1
  if !success then
    (r.2, .ack (.bool success), Effects.none)
  else
    (r.2, .ack (.bool success), send "edit message" (.message message))

/-- Handler of `delete message`. -/
def onDeleteMessage (s : Socket) (id : String) : Socket × Outcome × Effects :=
  let r := s._deleteMessage id
  (r.2, .ack (.id id), send "delete message" (.id id))

/-- Handler of `get settings`:
`Object.assign(\x7b\x7d, this.settings.inspect(), \x7b secret: null \x7d)`. -/
def onGetSettings (s : Socket) : Socket × Outcome × Effects :=
  let settings := JObject.assign (JObject.assign [] s.settings.inspect) [("secret", .null)]
  (s, .ack (.settings settings), Effects.none)

/-- The object `settings` built by the `set settings` handler: the entries of
the payload under a recognized key, each value coerced, collected with
`Object.assign` into a fresh object. -/
def coercedSettings (st : Settings) (newSettings : JObject) : JObject :=
  let allowedSettings := st.types.map (fun t => t.1)
  ((newSettings.filter (fun e => (allowedSettings.find? (fun k => k == e.1)).isSome)).map
      (fun e => (e.1, st.coerce e.1 e.2))).foldl
    (fun acc e => JObject.assign acc [(e.1, e.2)]) []

/-- The local function `hasChanged(oldSettings, newSettings)`. -/
def hasChanged (oldSettings : Settings) (newSettings : JObject) : Bool :=
  newSettings.any (fun e => !(JVal.strictEq (oldSettings.get e.1) e.2))

/-- The loop firing `settings change:<key>` for every key of `settings`: the
state and the effects reached, and whether a call of `_event` raised, which
ends the loop. -/
def fireKeys (s : Socket) (settings : JObject) : List String → Socket × Effects × Bool
  | [] => (s, Effects.none, false)
  | key :: keys =>
    match s._event ("settings change:" ++ key) (.value (settings.get key)) with
    | none => (s, Effects.none, true)
    | some r =>
      let rest := fireKeys r.1 settings keys
      (rest.1, r.2.append rest.2.1, rest.2.2)

/-- Handler of `set settings`. -/
def onSetSettings (s : Socket) (newSettings : JObject) : Socket × Outcome × Effects :=
  let settings := coercedSettings s.settings newSettings
  if !hasChanged s.settings settings then
    (s, .ack (.bool false), Effects.none)
  else
    let s1 : Socket :=
      { s with settings := { s.settings with _args := JObject.assign s.settings._args settings } }
    match s1._event "settings change" (.settings s1.settings.inspect) with
    | none => (s1, .raised "TypeError", Effects.none)
    | some r =>
      let k := fireKeys r.1 settings (settings.map (fun e => e.1))
      if k.2.2 then
        (k.1, .raised "TypeError", r.2.append k.2.1)
      else
        let s2 := k.1
        let newSettingsObject := s2.settings.inspect
        (s2, .ack (.bool true),
          (r.2.append k.2.1).append (send "settings change" (.settings newSettingsObject)))

/-- Handler of `add notification`. -/
def onAddNotification (s : Socket) (w : World) (title text : JVal) :
    Socket × Outcome × Effects :=
  let notification := w.newNotification text title
  (s, .ack (.notification notification), send "add notification" (.notification notification))

/-- The handler registered for a request. -/
def handle (s : Socket) (w : World) (cookies : Cookies) : Request → Socket × Outcome × Effects
  | .addMessage text => s.onAddMessage w cookies text
  | .meta => s.onMeta w cookies
  | .getMessages => s.onGetMessages
  | .addMessageAdmin text => s.onAddMessageAdmin w text
  | .editMessage message => s.onEditMessage message
  | .deleteMessage id => s.onDeleteMessage id
  | .getSettings => s.onGetSettings
  | .setSettings newSettings => s.onSetSettings newSettings
  | .addNotification title text => s.onAddNotification w title text

/-- An inbound event on a connection. When `_registerAdmin` ran for the
connection, the middleware installed with `socket.use` sees every incoming
packet first and verifies the captured credential against the current
secret; on failure it passes an error to `next` and no handler is
dispatched. The admin handlers exist only on such a connection. -/
def receive (s : Socket) (w : World) (c : Connection) (r : Request) :
    Socket × Outcome × Effects :=
  if c.admin then
    if w.jwtVerify c.cookies.auth s.secret then s.handle w c.cookies r
    else (s, .refused "Invalid auth token", Effects.none)
  else if r.adminOnly then (s, .unhandled, Effects.none)
  else s.handle w c.cookies r

end Socket

/-! ## Instances used for evaluation -/

/-- Modelled from the spec: a `Message` record carries an identifier, the
text cut to the maximum length when one is given, and its creation time;
the `Message` class is not part of the sources at hand. The identifier is
drawn from the clock and the text here. -/
def Message.inspect (now : Nat) (text : String) (maxLength : Option JVal) : MessageRecord :=
  { id := toString now ++ "/" ++ text
    text := match maxLength with
      | some (.num n) => String.mk (text.data.take n.toNat)
      | _ => text
    date := now }

/-- Modelled from the spec: a `Notification` record of a title and a text;
the `Notification` class is not part of the sources at hand. -/
def Notification.inspect (now : Nat) (text title : JVal) : NotificationRecord :=
  { id := "n" ++ toString now, title := title, text := text, date := now }

/-- Modelled from the spec: numeric parse, the coercion of an integer
setting. -/
def parseNumber (v : JVal) : JVal :=
  match v.toNum? with
  | some n => .num n
  | none => .nan

/-- A world at time `now` in which exactly the token `good` verifies, and
only under the secret `key`. -/
def World.atTime (now : Nat) : World :=
  { now := now
    newMessage := Message.inspect now
    newNotification := Notification.inspect now
    jwtVerify := fun token secret => token == some "good" && secret == .str "key" }

/-- A world at time `now` in which no token verifies: the credential has
expired or the secret has changed. -/
def World.rejecting (now : Nat) : World :=
  { now := now
    newMessage := Message.inspect now
    newNotification := Notification.inspect now
    jwtVerify := fun _ _ => false }

/-- Modelled from the spec: settings with the fields the spec names. -/
def Settings.sample : Settings :=
  { _args := [("messagesPerInterval", .num 1), ("messagesIntervalLength", .num 1000),
      ("maxMessageLength", .num 50), ("secret", .str "key")]
    types := [("messagesPerInterval", parseNumber), ("messagesIntervalLength", parseNumber),
      ("maxMessageLength", parseNumber)] }

/-! ## Sequences of calls -/

/-- Calls of `addMessage` in a row: the records created, in order of
creation, and the final state. -/
def Socket.addMessages (s : Socket) : List (World × String) → List MessageRecord × Socket
  | [] => ([], s)
  | c :: rest =>
    let r := s.addMessage c.1 c.2
    let k := Socket.addMessages r.2 rest
    (r.1 :: k.1, k.2)

/-- A call of one of the methods that write the message list. -/
inductive StoreCall where
  | sendMessage (w : World) (id : Identity) (text : String)
  | addMessage (w : World) (text : String)
  | editMessage (message : MessageRecord)
  | deleteMessage (id : String)

/-- The state after one call. -/
def Socket.call (s : Socket) : StoreCall → Socket
  | .sendMessage w id text => (s.sendMessage w id text).2.1
  | .addMessage w text => (s.addMessage w text).2
  | .editMessage message => (s._editMessage message).2
  | .deleteMessage id => (s._deleteMessage id).2

/-- The state after a sequence of calls. -/
def Socket.calls (s : Socket) (cs : List StoreCall) : Socket :=
  cs.foldl Socket.call s

/-- The sample socket: constructed at time 0 from the sample settings. -/
def Socket.sample : Socket :=
  Socket.new Settings.sample (World.atTime 0)

/-- The sample socket after identity `u1` has had one message accepted at
time 5, which uses up its quota of one per interval. -/
def Socket.sampleSpent : Socket :=
  (Socket.sample.sendMessage (World.atTime 5) (some "u1") "hello").2.1

/-- The sample socket after two calls of `addMessage`. -/
def Socket.sampleTwoAdded : Socket :=
  (Socket.sample.addMessages [(World.atTime 1, "first"), (World.atTime 2, "second")]).2

/-- The sample socket filled up to ten records. -/
def Socket.sampleFull : Socket :=
  (Socket.sample.addMessages [(World.atTime 1, "a1"), (World.atTime 2, "a2"),
    (World.atTime 3, "a3"), (World.atTime 4, "a4"), (World.atTime 5, "a5"),
    (World.atTime 6, "a6"), (World.atTime 7, "a7")]).2

/-- A connection of identity `u1` whose token verified at connect time. -/
def Connection.sampleAdmin : Connection :=
  Socket.sample.connect (World.atTime 1) { id := some "u1", auth := some "good" }

/-- A connection of identity `u1` whose token did not verify at connect
time. -/
def Connection.sampleAnonymous : Connection :=
  Socket.sample.connect (World.atTime 1) { id := some "u1", auth := some "bad" }

/-- The sample socket under another verification secret, all else equal. -/
def Socket.sampleOtherSecret : Socket :=
  Socket.new
    { Settings.sample with _args := JObject.set Settings.sample._args "secret" (.str "other") }
    (World.atTime 0)

/-- An entry with the value of `secret` blanked. Two objects differ only in
the value of `secret` when blanking makes them equal. -/
def hideSecret (e : String × JVal) : String × JVal :=
  if e.1 = "secret" then (e.1, .null) else e

/-- Calls of `on(event, fn)` in a row; `none` when one of them raises. -/
def Socket.registerAll (s : Socket) : List (String × Listener) → Option Socket
  | [] => some s
  | r :: rest =>
    match s.on' r.1 r.2 with
    | none => none
    | some s' => Socket.registerAll s' rest

/-- A socket with an empty registry, as `this.events` starts out in the
constructor. -/
def Socket.sampleNoListeners : Socket :=
  { Socket.sample with events := [] }

/-! ## Cookies -/

/-- Putting a character in front of the first piece of a split. -/
def consHead (c : Char) : List (List Char) → List (List Char)
  | [] => [[c]]
  | p :: ps => (c :: p) :: ps

/-- The call `cookieString.split('; ')`, on characters: the pieces between
the occurrences of the separator, found from left to right. -/
def splitSemicolonSpace : List Char → List (List Char)
  | [] => [[]]
  | [c] => [[c]]
  | c :: d :: rest =>
    if c = ';' ∧ d = ' ' then [] :: splitSemicolonSpace rest
    else consHead c (splitSemicolonSpace (d :: rest))

/-- The call `cookie.split('=')`, on characters. -/
def splitEquals : List Char → List (List Char)
  | [] => [[]]
  | c :: rest =>
    if c = '=' then [] :: splitEquals rest else consHead c (splitEquals rest)

/-- The call `value.join('=')`, on characters. -/
def joinEquals : List (List Char) → List Char
  | [] => []
  | [p] => p
  | p :: q :: rest => p ++ '=' :: joinEquals (q :: rest)

/-- The callback of `map` in `getCookies`: the piece before the first `=` is
the key, the remaining pieces joined with `=` are the value. -/
def cookieEntry (cookie : List Char) : String × JVal :=
  match splitEquals cookie with
  | [] => ("", .str "")
  | key :: value => (String.mk key, .str (String.mk (joinEquals value)))

/-- Method `getCookies(socket)`, given the `cookie` header of the handshake,
`none` when the header is absent. The accumulator of `reduce` is a plain
`\x7b\x7d`: `Object.assign` hands the key `__proto__` to the setter inherited
from `Object.prototype`, which ignores a string, so that key leaves the
accumulator as it is. -/
def Socket.getCookies (cookie : Option String) : JObject :=
  let cookieString := cookie.getD ""
  ((splitSemicolonSpace cookieString.data).map cookieEntry).foldl
    (fun acc e => if e.1 = "__proto__" then acc else JObject.assign acc [(e.1, e.2)]) []

/-- A string-valued property, `none` when it is not a string. -/
def JVal.asString : JVal → Option String
  | .str s => some s
  | _ => none

/-- The reads `cookies.id` and `cookies.auth`. -/
def Cookies.ofObject (o : JObject) : Cookies :=
  { id := (o.get "id").asString, auth := (o.get "auth").asString }

/-- The connection callback of `register` from the cookie header on. -/
def Socket.onConnection (s : Socket) (w : World) (cookie : Option String) : Connection :=
  s.connect w (Cookies.ofObject (Socket.getCookies cookie))

/-- Whether `; ` occurs in a list of characters. -/
def hasSeparator : List Char → Bool
  | [] => false
  | [_] => false
  | c :: d :: rest => decide (c = ';' ∧ d = ' ') || hasSeparator (d :: rest)

/-- The characters of the header `k1=v1; k2=v2; ...` of a list of pairs. -/
def cookieHeaderChars : List (String × String) → List Char
  | [] => []
  | [p] => p.1.data ++ '=' :: p.2.data
  | p :: q :: rest =>
    (p.1.data ++ '=' :: p.2.data) ++ ';' :: ' ' :: cookieHeaderChars (q :: rest)

/-- The header `k1=v1; k2=v2; ...` of a list of pairs. -/
def cookieHeader (pairs : List (String × String)) : String :=
  String.mk (cookieHeaderChars pairs)

/-- The entry of a pair in the object `getCookies` returns. -/
def cookiePair (p : String × String) : String × JVal :=
  (p.1, .str p.2)

/-! ## The bounded message list -/

theorem addMessage_fst (s : Socket) (w : World) (text : String) :
    (s.addMessage w text).1 = w.newMessage text (some s.maxMessageLength) := rfl

theorem addMessage_messages (s : Socket) (w : World) (text : String) :
    (s.addMessage w text).2.messages =
      if 10 ≤ s.messages.length then (s.addMessage w text).1 :: s.messages.dropLast
      else (s.addMessage w text).1 :: s.messages := by
  simp only [Socket.addMessage, Socket.maxMessagesLength, List.length_cons]
  by_cases h : 10 ≤ s.messages.length
  · have hne : s.messages ≠ [] := by
      intro h0
      rw [h0] at h
      simp at h
    have h1 : s.messages.length + 1 > 10 := by omega
    rw [if_pos h1, if_pos h, List.dropLast_cons_of_ne_nil hne]
  · have h1 : ¬ s.messages.length + 1 > 10 := by omega
    rw [if_neg h1, if_neg h]

theorem addMessage_rateLimiter (s : Socket) (w : World) (text : String) :
    (s.addMessage w text).2.rateLimiter = s.rateLimiter := rfl

theorem addMessage_settings (s : Socket) (w : World) (text : String) :
    (s.addMessage w text).2.settings = s.settings := rfl

theorem addMessage_events (s : Socket) (w : World) (text : String) :
    (s.addMessage w text).2.events = s.events := rfl

theorem addMessage_length_le (s : Socket) (w : World) (text : String)
    (h : s.messages.length ≤ 10) : (s.addMessage w text).2.messages.length ≤ 10 := by
  rw [addMessage_messages]
  split
  · simp only [List.length_cons, List.length_dropLast]
    omega
  · simp only [List.length_cons]
    omega

theorem sendMessage_messages_cases (s : Socket) (w : World) (id : Identity) (text : String) :
    (s.sendMessage w id text).2.1.messages = s.messages ∨
      (s.sendMessage w id text).2.1.messages = (s.addMessage w (jsTrim text)).2.messages := by
  unfold Socket.sendMessage
  simp only
  split
  · exact Or.inl rfl
  · split
    · exact Or.inr rfl
    · split
      · exact Or.inr rfl
      · exact Or.inr rfl

theorem editMessage_length (s : Socket) (message : MessageRecord) :
    (s._editMessage message).2.messages.length = s.messages.length := by
  unfold Socket._editMessage
  simp only
  split
  · rfl
  · simp

theorem deleteMessage_length_le (s : Socket) (id : String) :
    (s._deleteMessage id).2.messages.length ≤ s.messages.length := by
  simp only [Socket._deleteMessage]
  exact List.length_filter_le _ _

theorem call_length_le (s : Socket) (c : StoreCall) (h : s.messages.length ≤ 10) :
    (s.call c).messages.length ≤ 10 := by
  cases c with
  | sendMessage w id text =>
    rcases sendMessage_messages_cases s w id text with h1 | h1
    · simp only [Socket.call, h1]
      exact h
    · simp only [Socket.call, h1]
      exact addMessage_length_le s w _ h
  | addMessage w text => exact addMessage_length_le s w text h
  | editMessage message =>
    simp only [Socket.call, editMessage_length]
    exact h
  | deleteMessage id =>
    exact le_trans (deleteMessage_length_le s id) h

theorem calls_length_le (cs : List StoreCall) :
    ∀ s : Socket, s.messages.length ≤ 10 → (s.calls cs).messages.length ≤ 10 := by
  induction cs with
  | nil => intro s h; exact h
  | cons c rest ih =>
    intro s h
    exact ih (s.call c) (call_length_le s c h)

theorem new_messages_length (settings : Settings) (w : World) :
    (Socket.new settings w).messages.length = 3 := rfl

/-- C6: starting from the list the constructor builds, every sequence of
`sendMessage`, `addMessage`, `_editMessage` and `_deleteMessage` calls leaves
a message list of at most ten records. -/
theorem messages_never_exceed_max (settings : Settings) (w0 : World) (cs : List StoreCall) :
    ((Socket.new settings w0).calls cs).messages.length ≤ Socket.maxMessagesLength := by
  apply calls_length_le
  rw [new_messages_length]
  decide

theorem take_length_pred_append_getLast {α : Type} (l : List α) (h : l ≠ []) :
    l.take (l.length - 1) ++ [l.getLast h] = l := by
  rw [← List.dropLast_eq_take]
  exact List.dropLast_append_getLast h

/-- C7: `addMessage` on a list of at most ten records leaves the new record
followed by the first nine previous records in their order. With fewer than
ten records that is the new record followed by the whole previous list, so
nothing is dropped; with exactly ten the previous list is its first nine
records followed by its last one, and that last (earliest added) record is
the one dropped. -/
theorem addMessage_drops_oldest (s : Socket) (w : World) (text : String)
    (h : s.messages.length ≤ Socket.maxMessagesLength) :
    (s.addMessage w text).2.messages = (s.addMessage w text).1 :: s.messages.take 9 ∧
    (s.messages.length < 10 →
      (s.addMessage w text).2.messages = (s.addMessage w text).1 :: s.messages) ∧
    (s.messages.length = 10 →
      ∃ oldest, s.messages.getLast? = some oldest ∧
        s.messages = s.messages.take 9 ++ [oldest] ∧
        (s.addMessage w text).2.messages.length = 10) := by
  have hmax : s.messages.length ≤ 10 := h
  refine ⟨?_, ?_, ?_⟩
  · rw [addMessage_messages]
    split
    · have h10 : s.messages.length = 10 := by omega
      rw [List.dropLast_eq_take, h10]
    · rw [List.take_of_length_le (by omega)]
  · intro hlt
    rw [addMessage_messages, if_neg (by omega)]
  · intro h10
    have hne : s.messages ≠ [] := by
      intro h0
      rw [h0] at h10
      simp at h10
    refine ⟨s.messages.getLast hne, List.getLast?_eq_getLast _ hne, ?_, ?_⟩
    · have := take_length_pred_append_getLast s.messages hne
      rw [h10] at this
      exact this.symm
    · rw [addMessage_messages, if_pos (by omega)]
      simp only [List.length_cons, List.length_dropLast]
      omega

/-- Witness of C7 on a list of exactly ten records: the record dropped is the
constructor's first greeting, the last of the list. -/
theorem addMessage_drops_oldest_witness :
    Socket.sampleFull.messages.length ≤ Socket.maxMessagesLength ∧
    (Socket.sampleFull.addMessage (World.atTime 8) "bok").2.messages =
      (Socket.sampleFull.addMessage (World.atTime 8) "bok").1 ::
        Socket.sampleFull.messages.take 9 :=
  ⟨by decide, (addMessage_drops_oldest Socket.sampleFull (World.atTime 8) "bok" (by decide)).1⟩

/-! ## Order of `getMessages` -/

theorem getMessages_addMessage (s : Socket) (w : World) (text : String)
    (h : s.messages.length ≤ 10) :
    (s.addMessage w text).2.getMessages =
      (s.getMessages ++ [(s.addMessage w text).1]).drop (s.messages.length + 1 - 10) := by
  simp only [Socket.getMessages]
  rw [addMessage_messages]
  split
  · have h10 : s.messages.length = 10 := by omega
    have hne : s.messages ≠ [] := by
      intro h0
      rw [h0] at h10
      simp at h10
    rw [h10, List.reverse_cons]
    have hd : s.messages.dropLast.reverse = s.messages.reverse.drop 1 := by
      conv_rhs => rw [← List.dropLast_append_getLast hne]
      simp
    rw [hd]
    have hlen : 1 ≤ s.messages.reverse.length := by
      rw [List.length_reverse]
      omega
    rw [List.drop_append_of_le_length hlen]
  · have hd : s.messages.length + 1 - 10 = 0 := by omega
    rw [hd, List.drop_zero, List.reverse_cons]

theorem getMessages_addMessages (cs : List (World × String)) :
    ∀ s : Socket, s.messages.length ≤ 10 →
      (s.addMessages cs).2.getMessages =
        (s.getMessages ++ (s.addMessages cs).1).drop (s.messages.length + cs.length - 10) := by
  induction cs with
  | nil =>
    intro s h
    have hd : s.messages.length + ([] : List (World × String)).length - 10 = 0 := by
      simp only [List.length_nil]
      omega
    rw [hd]
    simp [Socket.addMessages]
  | cons c rest ih =>
    intro s h
    have hlen' := addMessage_length_le s c.1 c.2 h
    have hstep := getMessages_addMessage s c.1 c.2 h
    have hih := ih (s.addMessage c.1 c.2).2 hlen'
    simp only [Socket.addMessages]
    rw [hih, hstep]
    have hlen1 : (s.addMessage c.1 c.2).2.messages.length =
        s.messages.length + 1 - (s.messages.length + 1 - 10) := by
      have := congrArg List.length hstep
      simp only [Socket.getMessages, List.length_reverse, List.length_drop, List.length_append,
        List.length_cons, List.length_nil] at this
      omega
    have hle : s.messages.length + 1 - 10 ≤ (s.getMessages ++ [(s.addMessage c.1 c.2).1]).length := by
      simp only [Socket.getMessages, List.length_append, List.length_reverse, List.length_cons,
        List.length_nil]
      omega
    rw [← List.drop_append_of_le_length hle, List.drop_drop, List.append_assoc,
      List.singleton_append, hlen1, List.length_cons]
    congr 1
    omega

/-- C2, as stated, fails: after `addMessage` of `first` and then of `second`
on the sample socket, `getMessages` lists the earlier record `first` before
the later record `second`, and the most recent record comes last. -/
theorem getMessages_not_most_recent_first :
    (Socket.sample.addMessages [(World.atTime 1, "first"), (World.atTime 2, "second")]).1 =
      [{ id := "1/first", text := "first", date := 1 },
       { id := "2/second", text := "second", date := 2 }] ∧
    Socket.sampleTwoAdded.getMessages =
      [{ id := "0/KOMP je najbolja sekcija", text := "KOMP je najbolja sekcija", date := 0 },
       { id := "0/KSET je lit", text := "KSET je lit", date := 0 },
       { id := "0/Pošaljite poruku!", text := "Pošaljite poruku!", date := 0 },
       { id := "1/first", text := "first", date := 1 },
       { id := "2/second", text := "second", date := 2 }] ∧
    ¬ (Socket.sampleTwoAdded.getMessages.indexOf
          ({ id := "2/second", text := "second", date := 2 } : MessageRecord) <
        Socket.sampleTwoAdded.getMessages.indexOf
          ({ id := "1/first", text := "first", date := 1 } : MessageRecord)) := by
  decide

/-- C2, amended: after any sequence of `addMessage` calls on a freshly
constructed socket, `getMessages` returns the records oldest-first: it is
the constructor's records followed by the added records in order of
addition, without the oldest ones that no longer fit into ten. A record
added later therefore comes after every record added earlier. -/
theorem getMessages_oldest_first (settings : Settings) (w0 : World)
    (cs : List (World × String)) :
    ((Socket.new settings w0).addMessages cs).2.getMessages =
      ((Socket.new settings w0).getMessages ++ ((Socket.new settings w0).addMessages cs).1).drop
        (3 + cs.length - Socket.maxMessagesLength) := by
  have h := getMessages_addMessages cs (Socket.new settings w0)
    (by rw [new_messages_length]; decide)
  rw [new_messages_length] at h
  exact h

/-! ## `sendMessage` -/

theorem sendMessage_short (s : Socket) (w : World) (id : Identity) (text : String)
    (h : jsLength (jsTrim text) < 2) :
    s.sendMessage w id text = (false, s, Effects.none) := by
  unfold Socket.sendMessage
  simp only
  rw [if_pos h]

theorem sendMessage_no_identity (s : Socket) (w : World) (id : Identity) (text : String)
    (h : 2 ≤ jsLength (jsTrim text)) (hid : id.truthy = false) :
    s.sendMessage w id text =
      (true, (s.addMessage w (jsTrim text)).2,
        Socket.send "new message" (.message (s.addMessage w (jsTrim text)).1)) := by
  unfold Socket.sendMessage
  simp only
  rw [if_neg (by omega), hid]
  simp

theorem sendMessage_limited (s : Socket) (w : World) (id : Identity) (text : String)
    (h : 2 ≤ jsLength (jsTrim text)) (hid : id.truthy = true)
    (hcan : (s.rateLimiter.getOrCreate w.now id).2.can w.now
      (s.rateLimiter.getOrCreate w.now id).1 = false) :
    s.sendMessage w id text =
      (false,
        { (s.addMessage w (jsTrim text)).2 with
          rateLimiter := (s.rateLimiter.getOrCreate w.now id).2 },
        Effects.none) := by
  unfold Socket.sendMessage
  simp only
  rw [if_neg (by omega), hid]
  simp only [addMessage_rateLimiter, hcan]
  simp

theorem sendMessage_allowed (s : Socket) (w : World) (id : Identity) (text : String)
    (h : 2 ≤ jsLength (jsTrim text)) (hid : id.truthy = true)
    (hcan : (s.rateLimiter.getOrCreate w.now id).2.can w.now
      (s.rateLimiter.getOrCreate w.now id).1 = true) :
    s.sendMessage w id text =
      (true,
        { (s.addMessage w (jsTrim text)).2 with
          rateLimiter := (s.rateLimiter.getOrCreate w.now id).2.update w.now
            (s.rateLimiter.getOrCreate w.now id).1 },
        Socket.send "new message" (.message (s.addMessage w (jsTrim text)).1)) := by
  unfold Socket.sendMessage
  simp only
  rw [if_neg (by omega), hid]
  simp only [addMessage_rateLimiter, hcan]
  simp

/-- C1, the code at the failing input: identity `u1` has used up its quota,
so its entry reports `can = false`; `sendMessage` then returns false and
broadcasts nothing, yet the rejected text has been stored in front of the
message list. -/
theorem sendMessage_limited_stores_message :
    (Socket.sampleSpent.rateLimiter.getOrCreate 6 (some "u1")).2.can 6
        (Socket.sampleSpent.rateLimiter.getOrCreate 6 (some "u1")).1 = false ∧
    (Socket.sampleSpent.sendMessage (World.atTime 6) (some "u1") "again").1 = false ∧
    (Socket.sampleSpent.sendMessage (World.atTime 6) (some "u1") "again").2.2 = Effects.none ∧
    (Socket.sampleSpent.sendMessage (World.atTime 6) (some "u1") "again").2.1.messages =
      { id := "6/again", text := "again", date := 6 } :: Socket.sampleSpent.messages ∧
    (Socket.sampleSpent.sendMessage (World.atTime 6) (some "u1") "again").2.1.messages ≠
      Socket.sampleSpent.messages := by
  decide

/-- C8: a text whose trimmed length is below two makes `sendMessage` return
false with the state (message list, rate limiter and all) unchanged and no
effect, whatever the identity; without an identity, a text whose trimmed
length is at least two makes it return true. -/
theorem sendMessage_validates_length (s : Socket) (w : World) (id : Identity) (text : String) :
    (jsLength (jsTrim text) < 2 → s.sendMessage w id text = (false, s, Effects.none)) ∧
    (id.truthy = false → 2 ≤ jsLength (jsTrim text) → (s.sendMessage w id text).1 = true) := by
  refine ⟨sendMessage_short s w id text, ?_⟩
  intro hid h
  rw [sendMessage_no_identity s w id text h hid]

/-- Witness of C8: the texts of one letter and of blanks are rejected for a
present identity, and `ok` is accepted without identity. -/
theorem sendMessage_validates_length_witness :
    Socket.sample.sendMessage (World.atTime 1) (some "u1") " a " =
      (false, Socket.sample, Effects.none) ∧
    (Socket.sample.sendMessage (World.atTime 1) none "ok").1 = true :=
  ⟨(sendMessage_validates_length Socket.sample (World.atTime 1) (some "u1") " a ").1 (by decide),
   (sendMessage_validates_length Socket.sample (World.atTime 1) none "ok").2 (by decide)
     (by decide)⟩

/-! ## The rate limiter -/

theorem getOrCreate_identity (rl : RateLimiter) (now : Nat) (id : Identity) :
    (rl.getOrCreate now id).1.identity = id := by
  unfold RateLimiter.getOrCreate
  cases h : rl.get id with
  | none => rfl
  | some e =>
    have := List.find?_some h
    simpa using this

theorem get_getOrCreate (rl : RateLimiter) (now : Nat) (id : Identity) :
    (rl.getOrCreate now id).2.get id = some (rl.getOrCreate now id).1 := by
  unfold RateLimiter.getOrCreate
  cases h : rl.get id with
  | none =>
    simp only [RateLimiter.get] at h ⊢
    rw [List.find?_append, h]
    simp
  | some e => exact h

theorem get_update (rl : RateLimiter) (now : Nat) (e x : RateLimitEntry) (id : Identity)
    (h : rl.get id = some x) (hx : x.identity = e.identity) :
    ∃ e', (rl.update now e).get id = some e' ∧ e'.identity = id := by
  have hid : x.identity = id := by
    have := List.find?_some h
    simpa using this
  simp only [RateLimiter.get] at h
  simp only [RateLimiter.update, RateLimiter.get, List.find?_map]
  have hfun : ((fun (y : RateLimitEntry) => y.identity == id) ∘
      fun (y : RateLimitEntry) =>
        if y.identity = e.identity then
          (if rl.inWindow now e = true then { e with count := e.count + 1 }
           else { e with windowStart := now, count := 1 } : RateLimitEntry)
        else y) = fun (y : RateLimitEntry) => y.identity == id := by
    funext y
    simp only [Function.comp]
    by_cases hy : y.identity = e.identity
    · rw [if_pos hy]
      split <;> simp [hy]
    · rw [if_neg hy]
  rw [hfun, h]
  simp only [Option.map_some', hx, if_true]
  refine ⟨_, rfl, ?_⟩
  split <;> simp [← hx, hid]

/-! ## Requests on a connection -/

theorem receive_guard_refuses (s : Socket) (w : World) (c : Connection) (r : Request)
    (hc : c.admin = true) (hv : w.jwtVerify c.cookies.auth s.secret = false) :
    s.receive w c r = (s, .refused "Invalid auth token", Effects.none) := by
  simp [Socket.receive, hc, hv]

theorem receive_without_guard (s : Socket) (w : World) (c : Connection) (r : Request)
    (hc : c.admin = false) (hr : r.adminOnly = false) :
    s.receive w c r = s.handle w c.cookies r := by
  simp [Socket.receive, hc, hr]

theorem receive_without_handler (s : Socket) (w : World) (c : Connection) (r : Request)
    (hc : c.admin = false) (hr : r.adminOnly = true) :
    s.receive w c r = (s, .unhandled, Effects.none) := by
  simp [Socket.receive, hc, hr]

theorem addMessage_head (s : Socket) (w : World) (text : String) :
    (s.addMessage w text).2.messages.head? = some (s.addMessage w text).1 := by
  rw [addMessage_messages]
  split <;> rfl

theorem onAddMessage_allowed (s : Socket) (w : World) (cookies : Cookies) (text : String)
    (h : 2 ≤ jsLength (jsTrim text)) (hid : cookies.id.truthy = true)
    (hcan : (s.rateLimiter.getOrCreate w.now cookies.id).2.can w.now
      (s.rateLimiter.getOrCreate w.now cookies.id).1 = true) :
    ∃ entry,
      (s.onAddMessage w cookies text).2.1 = .ack (.sent true entry) ∧
      (s.onAddMessage w cookies text).1.messages = (s.addMessage w (jsTrim text)).2.messages ∧
      (s.onAddMessage w cookies text).2.2.emits =
        [.all "new message" (.message (s.addMessage w (jsTrim text)).1),
         .room cookies.id "meta" (.entry entry)] := by
  obtain ⟨e', he', _⟩ := get_update (s.rateLimiter.getOrCreate w.now cookies.id).2 w.now
    (s.rateLimiter.getOrCreate w.now cookies.id).1
    (s.rateLimiter.getOrCreate w.now cookies.id).1 cookies.id
    (get_getOrCreate s.rateLimiter w.now cookies.id) rfl
  unfold Socket.onAddMessage
  simp only [sendMessage_allowed s w cookies.id text h hid hcan, he']
  exact ⟨_, rfl, trivial, rfl⟩

theorem onMeta_answers (s : Socket) (w : World) (cookies : Cookies) :
    ∃ entry, (s.onMeta w cookies).2.1 = .ack (.entry entry) ∧
      (s.onMeta w cookies).1.messages = s.messages ∧
      (s.onMeta w cookies).2.2 = Effects.none :=
  ⟨_, rfl, rfl, rfl⟩

/-- C3, as stated, fails: the sample connection verified at connect time, so
the guard is installed; once its credential no longer verifies, an
`add message` with a valid text from an identity whose entry reports
`can = true` is refused by the guard, nothing is stored or broadcast, and
`meta` is refused as well. -/
theorem guard_blocks_base_requests :
    Connection.sampleAdmin.admin = true ∧
    (World.rejecting 2).jwtVerify Connection.sampleAdmin.cookies.auth Socket.sample.secret = false ∧
    2 ≤ jsLength (jsTrim "hello") ∧
    (Socket.sample.rateLimiter.getOrCreate 2 (some "u1")).2.can 2
      (Socket.sample.rateLimiter.getOrCreate 2 (some "u1")).1 = true ∧
    (Socket.sample.receive (World.rejecting 2) Connection.sampleAdmin (.addMessage "hello")).2.1 =
      .refused "Invalid auth token" ∧
    (Socket.sample.receive (World.rejecting 2) Connection.sampleAdmin
      (.addMessage "hello")).1.messages = Socket.sample.messages ∧
    (Socket.sample.receive (World.rejecting 2) Connection.sampleAdmin (.addMessage "hello")).2.2 =
      Effects.none ∧
    (Socket.sample.receive (World.rejecting 2) Connection.sampleAdmin .meta).2.1 =
      .refused "Invalid auth token" := by
  decide

/-- C3, amended: on a connection with the guard installed whose credential
fails verification, every request, `add message` and `meta` included, is
refused with `Invalid auth token`: no handler runs, the state is unchanged
and nothing is emitted. On a connection without the guard, an `add message`
with a valid text from a non-empty identity whose entry reports `can = true`
is stored at the head of the list, broadcast and acknowledged with true, and
`meta` is answered. -/
theorem guard_refuses_every_request (s : Socket) (w : World) (c : Connection) :
    (c.admin = true → w.jwtVerify c.cookies.auth s.secret = false →
      ∀ r, s.receive w c r = (s, .refused "Invalid auth token", Effects.none)) ∧
    (c.admin = false →
      (∀ text, 2 ≤ jsLength (jsTrim text) → c.cookies.id.truthy = true →
        (s.rateLimiter.getOrCreate w.now c.cookies.id).2.can w.now
          (s.rateLimiter.getOrCreate w.now c.cookies.id).1 = true →
        ∃ entry,
          (s.receive w c (.addMessage text)).2.1 = .ack (.sent true entry) ∧
          (s.receive w c (.addMessage text)).1.messages.head? =
            some (w.newMessage (jsTrim text) (some s.maxMessageLength)) ∧
          (s.receive w c (.addMessage text)).2.2.emits =
            [.all "new message" (.message (w.newMessage (jsTrim text) (some s.maxMessageLength))),
             .room c.cookies.id "meta" (.entry entry)]) ∧
      ∃ entry, (s.receive w c .meta).2.1 = .ack (.entry entry)) := by
  refine ⟨fun hc hv r => receive_guard_refuses s w c r hc hv, fun hc => ⟨?_, ?_⟩⟩
  · intro text h hid hcan
    rw [receive_without_guard s w c (.addMessage text) hc rfl]
    obtain ⟨entry, h1, h2, h3⟩ := onAddMessage_allowed s w c.cookies text h hid hcan
    refine ⟨entry, h1, ?_, h3⟩
    simp only [Socket.handle]
    rw [h2, addMessage_head]
    rfl
  · rw [receive_without_guard s w c .meta hc rfl]
    obtain ⟨entry, h1, _⟩ := onMeta_answers s w c.cookies
    exact ⟨entry, h1⟩

/-- Witness of C3 as amended: the guarded sample connection is refused
`add message` once its credential fails, and the unguarded one is served. -/
theorem guard_refuses_every_request_witness :
    Socket.sample.receive (World.rejecting 2) Connection.sampleAdmin (.addMessage "hello") =
      (Socket.sample, .refused "Invalid auth token", Effects.none) ∧
    ∃ entry, (Socket.sample.receive (World.rejecting 2) Connection.sampleAnonymous .meta).2.1 =
      .ack (.entry entry) :=
  ⟨(guard_refuses_every_request Socket.sample (World.rejecting 2) Connection.sampleAdmin).1
      (by decide) (by decide) (.addMessage "hello"),
   ((guard_refuses_every_request Socket.sample (World.rejecting 2)
      Connection.sampleAnonymous).2 (by decide)).2⟩

/-- C9, the code at the failing input: identity `u1` has no entry yet and
the text `a` is too short, so `sendMessage` returns before `getOrCreate`;
the handler then reads `get(id)`, finds no entry, and raises on
`.inspect()` instead of acknowledging. -/
theorem addMessage_handler_raises_without_entry :
    Socket.sample.rateLimiter.get (some "u1") = none ∧
    jsLength (jsTrim "a") < 2 ∧
    (Socket.sample.onAddMessage (World.atTime 1) { id := some "u1", auth := none } "a").2.1 =
      .raised "TypeError" ∧
    (Socket.sample.receive (World.atTime 1) Connection.sampleAnonymous (.addMessage "a")).2.1 =
      .raised "TypeError" := by
  decide

/-- C10: an admin-only request on a connection whose credential fails
verification at the time of the request runs no handler, whether the guard
is installed (the request is refused) or the credential already failed at
connect (no admin handler is registered): the whole state, with message
list, settings and rate limiter, is unchanged and nothing is emitted. -/
theorem admin_request_needs_valid_credential (s : Socket) (w : World) (c : Connection)
    (r : Request) (hr : r.adminOnly = true)
    (hv : w.jwtVerify c.cookies.auth s.secret = false) :
    (s.receive w c r).1 = s ∧
    (s.receive w c r).2.2 = Effects.none ∧
    ((s.receive w c r).2.1 = .refused "Invalid auth token" ∨
      (s.receive w c r).2.1 = .unhandled) := by
  cases hc : c.admin with
  | true =>
    rw [receive_guard_refuses s w c r hc hv]
    exact ⟨rfl, rfl, Or.inl rfl⟩
  | false =>
    rw [receive_without_handler s w c r hc hr]
    exact ⟨rfl, rfl, Or.inr rfl⟩

/-- Witness of C10: a `delete message` on the guarded sample connection
after its credential stopped verifying. -/
theorem admin_request_needs_valid_credential_witness :
    (Socket.sample.receive (World.rejecting 2) Connection.sampleAdmin
      (.deleteMessage "0/KSET je lit")).1 = Socket.sample ∧
    (Socket.sample.receive (World.rejecting 2) Connection.sampleAdmin
      (.deleteMessage "0/KSET je lit")).2.2 = Effects.none :=
  ⟨(admin_request_needs_valid_credential Socket.sample (World.rejecting 2)
      Connection.sampleAdmin (.deleteMessage "0/KSET je lit") (by decide) (by decide)).1,
   (admin_request_needs_valid_credential Socket.sample (World.rejecting 2)
      Connection.sampleAdmin (.deleteMessage "0/KSET je lit") (by decide) (by decide)).2.1⟩

/-! ## Objects -/

theorem hideSecret_fst (e : String × JVal) : (hideSecret e).1 = e.1 := by
  unfold hideSecret
  split <;> rfl

theorem set_of_not_mem (o : JObject) (k : String) (v : JVal)
    (h : k ∉ o.map Prod.fst) : JObject.set o k v = o ++ [(k, v)] := by
  induction o with
  | nil => rfl
  | cons e rest ih =>
    obtain ⟨k', v'⟩ := e
    simp only [List.map_cons, List.mem_cons, not_or] at h
    simp only [JObject.set]
    rw [if_neg (fun hk => h.1 hk.symm), ih h.2]
    rfl

theorem assign_of_nodup (source : JObject) :
    ∀ target : JObject, ((target ++ source).map Prod.fst).Nodup →
      JObject.assign target source = target ++ source := by
  induction source with
  | nil => intro target _; simp [JObject.assign]
  | cons e rest ih =>
    intro target h
    have hnot : e.1 ∉ target.map Prod.fst := by
      rw [List.map_append, List.map_cons] at h
      have h' := (List.nodup_append.mp h).2.2
      intro hmem
      exact h' hmem (List.mem_cons_self _ _)
    have hstep : JObject.assign target (e :: rest) =
        JObject.assign (JObject.set target e.1 e.2) rest := rfl
    rw [hstep, set_of_not_mem target e.1 e.2 hnot]
    have h2 : (((target ++ [(e.1, e.2)]) ++ rest).map Prod.fst).Nodup := by
      simpa using h
    rw [ih _ h2]
    simp

theorem get_set_self (o : JObject) (k : String) (v : JVal) :
    JObject.get (JObject.set o k v) k = v := by
  induction o with
  | nil => simp [JObject.set, JObject.get]
  | cons e rest ih =>
    obtain ⟨k', v'⟩ := e
    simp only [JObject.set]
    by_cases hk : k' = k
    · rw [if_pos hk]
      simp [JObject.get, hk]
    · rw [if_neg hk]
      simp only [JObject.get, List.find?_cons] at ih ⊢
      have : ((k' == k) = false) := by simpa using hk
      rw [this]
      exact ih

theorem get_set_other (o : JObject) (k k' : String) (v : JVal) (h : k ≠ k') :
    JObject.get (JObject.set o k' v) k = JObject.get o k := by
  induction o with
  | nil =>
    have : ((k' == k) = false) := by simpa using (Ne.symm h)
    simp [JObject.set, JObject.get, this]
  | cons e rest ih =>
    obtain ⟨k₁, v₁⟩ := e
    simp only [JObject.set]
    by_cases hk : k₁ = k'
    · rw [if_pos hk]
      have : ((k₁ == k) = false) := by
        rw [hk]
        simpa using (Ne.symm h)
      simp [JObject.get, List.find?_cons, this]
    · rw [if_neg hk]
      simp only [JObject.get, List.find?_cons] at ih ⊢
      cases hb : (k₁ == k)
      · exact ih
      · rfl

theorem set_keys_nodup (o : JObject) (k : String) (v : JVal)
    (h : (o.map Prod.fst).Nodup) : ((JObject.set o k v).map Prod.fst).Nodup := by
  induction o with
  | nil => simp [JObject.set]
  | cons e rest ih =>
    obtain ⟨k', v'⟩ := e
    simp only [JObject.set]
    by_cases hk : k' = k
    · rw [if_pos hk]
      exact h
    · rw [if_neg hk]
      simp only [List.map_cons, List.nodup_cons] at h ⊢
      refine ⟨?_, ih h.2⟩
      intro hmem
      by_cases hin : k ∈ rest.map Prod.fst
      · have hkeys : ∀ (r : JObject), k ∈ r.map Prod.fst →
            (JObject.set r k v).map Prod.fst = r.map Prod.fst := by
          intro r
          induction r with
          | nil => intro hr; simp at hr
          | cons e₂ r₂ ih₂ =>
            intro hr
            obtain ⟨k₂, v₂⟩ := e₂
            simp only [JObject.set]
            by_cases hk₂ : k₂ = k
            · rw [if_pos hk₂]
              rfl
            · rw [if_neg hk₂]
              simp only [List.map_cons, List.mem_cons] at hr
              rcases hr with hr | hr
              · exact absurd hr.symm hk₂
              · simp only [List.map_cons, ih₂ hr]
        rw [hkeys rest hin] at hmem
        exact h.1 hmem
      · rw [set_of_not_mem rest k v hin] at hmem
        simp only [List.map_append, List.map_cons, List.map_nil, List.mem_append,
          List.mem_singleton] at hmem
        rcases hmem with hmem | hmem
        · exact h.1 hmem
        · exact hk hmem

theorem hide_set (o o' : JObject) (k : String) (v v' : JVal)
    (h : o.map hideSecret = o'.map hideSecret) (hv : hideSecret (k, v) = hideSecret (k, v')) :
    (JObject.set o k v).map hideSecret = (JObject.set o' k v').map hideSecret := by
  induction o generalizing o' with
  | nil =>
    cases o' with
    | nil => simp [JObject.set, hv]
    | cons e' r' => simp at h
  | cons e r ih =>
    cases o' with
    | nil => simp at h
    | cons e' r' =>
      obtain ⟨k₁, v₁⟩ := e
      obtain ⟨k₂, v₂⟩ := e'
      simp only [List.map_cons, List.cons.injEq] at h
      have hk : k₁ = k₂ := by
        have := congrArg Prod.fst h.1
        simpa [hideSecret_fst] using this
      subst hk
      simp only [JObject.set]
      by_cases hkk : k₁ = k
      · rw [if_pos hkk, if_pos hkk]
        simp only [List.map_cons, List.cons.injEq]
        refine ⟨?_, h.2⟩
        rw [hkk]
        exact hv
      · rw [if_neg hkk, if_neg hkk]
        simp only [List.map_cons, List.cons.injEq]
        exact ⟨h.1, ih r' h.2⟩

theorem hide_assign (a : JObject) :
    ∀ (b acc acc' : JObject), a.map hideSecret = b.map hideSecret →
      acc.map hideSecret = acc'.map hideSecret →
      (JObject.assign acc a).map hideSecret = (JObject.assign acc' b).map hideSecret := by
  induction a with
  | nil =>
    intro b acc acc' h hacc
    cases b with
    | nil => simpa [JObject.assign] using hacc
    | cons e r => simp at h
  | cons e r ih =>
    intro b acc acc' h hacc
    cases b with
    | nil => simp at h
    | cons e' r' =>
      simp only [List.map_cons, List.cons.injEq] at h
      have hk : e.1 = e'.1 := by
        have := congrArg Prod.fst h.1
        simpa [hideSecret_fst] using this
      have hstep : ∀ (x : JObject) (y : String × JVal) (ys : JObject),
          JObject.assign x (y :: ys) = JObject.assign (JObject.set x y.1 y.2) ys :=
        fun _ _ _ => rfl
      rw [hstep, hstep]
      apply ih r' _ _ h.2
      rw [← hk]
      apply hide_set acc acc' e.1 e.2 e'.2 hacc
      have h1 := h.1
      rw [show e' = (e.1, e'.2) from by rw [hk]] at h1
      exact h1

theorem assign_keys_nodup (a : JObject) :
    ∀ acc : JObject, (acc.map Prod.fst).Nodup →
      ((JObject.assign acc a).map Prod.fst).Nodup := by
  induction a with
  | nil => intro acc h; simpa [JObject.assign] using h
  | cons e r ih =>
    intro acc h
    exact ih _ (set_keys_nodup acc e.1 e.2 h)

theorem eq_of_hide_eq (o o' : JObject) (h : o.map hideSecret = o'.map hideSecret)
    (hs : "secret" ∉ o.map Prod.fst) : o = o' := by
  induction o generalizing o' with
  | nil =>
    cases o' with
    | nil => rfl
    | cons e r => simp at h
  | cons e r ih =>
    cases o' with
    | nil => simp at h
    | cons e' r' =>
      simp only [List.map_cons, List.cons.injEq] at h
      simp only [List.map_cons, List.mem_cons, not_or] at hs
      have hk : e.1 = e'.1 := by
        have := congrArg Prod.fst h.1
        simpa [hideSecret_fst] using this
      have he : e = e' := by
        have h1 := h.1
        unfold hideSecret at h1
        rw [if_neg (fun hh => hs.1 hh.symm), if_neg (fun hh => hs.1 (hk ▸ hh).symm)] at h1
        exact h1
      rw [he, ih r' h.2 hs.2]

theorem set_secret_eq_of_hide_eq (o o' : JObject) (h : o.map hideSecret = o'.map hideSecret)
    (hn : (o.map Prod.fst).Nodup) :
    JObject.set o "secret" .null = JObject.set o' "secret" .null := by
  induction o generalizing o' with
  | nil =>
    cases o' with
    | nil => rfl
    | cons e r => simp at h
  | cons e r ih =>
    cases o' with
    | nil => simp at h
    | cons e' r' =>
      obtain ⟨k₁, v₁⟩ := e
      obtain ⟨k₂, v₂⟩ := e'
      simp only [List.map_cons, List.cons.injEq] at h
      simp only [List.map_cons, List.nodup_cons] at hn
      have hk : k₁ = k₂ := by
        have := congrArg Prod.fst h.1
        simpa [hideSecret_fst] using this
      subst hk
      simp only [JObject.set]
      by_cases hkk : k₁ = "secret"
      · rw [if_pos hkk, if_pos hkk]
        rw [eq_of_hide_eq r r' h.2 (hkk ▸ hn.1)]
      · rw [if_neg hkk, if_neg hkk]
        have h1 := h.1
        unfold hideSecret at h1
        simp only [if_neg hkk] at h1
        rw [h1, ih r' h.2 hn.2]

/-! ## Settings on the wire -/

theorem onGetSettings_ack (s : Socket) :
    s.onGetSettings =
      (s, .ack (.settings (JObject.set (JObject.assign [] s.settings.inspect) "secret" .null)),
        Effects.none) := rfl

/-- C5: the reply of `get settings` is the settings snapshot with `secret`
set to null: its `secret` field reads null and every other field reads as in
the snapshot; and any settings state that differs only in the value of
`secret` gets the same reply. -/
theorem getSettings_reply_hides_secret (s : Socket)
    (h : (s.settings.inspect.map Prod.fst).Nodup) :
    ∃ reply,
      s.onGetSettings = (s, .ack (.settings reply), Effects.none) ∧
      reply = JObject.set s.settings.inspect "secret" .null ∧
      reply.get "secret" = .null ∧
      (∀ k, k ≠ "secret" → reply.get k = s.settings.inspect.get k) ∧
      (∀ s' : Socket, s'.settings.inspect.map hideSecret = s.settings.inspect.map hideSecret →
        s'.onGetSettings.2.1 = .ack (.settings reply)) := by
  have hplain : JObject.assign [] s.settings.inspect = s.settings.inspect := by
    have := assign_of_nodup s.settings.inspect [] (by simpa using h)
    simpa using this
  refine ⟨JObject.set s.settings.inspect "secret" .null, ?_, rfl, ?_, ?_, ?_⟩
  · rw [onGetSettings_ack, hplain]
  · exact get_set_self _ _ _
  · intro k hk
    exact get_set_other _ _ _ _ hk
  · intro s' hs'
    rw [onGetSettings_ack]
    have hhide : (JObject.assign [] s'.settings.inspect).map hideSecret =
        (JObject.assign [] s.settings.inspect).map hideSecret :=
      hide_assign s'.settings.inspect s.settings.inspect [] [] hs' rfl
    have hnodup : ((JObject.assign [] s'.settings.inspect).map Prod.fst).Nodup :=
      assign_keys_nodup s'.settings.inspect [] (by simp)
    rw [set_secret_eq_of_hide_eq _ _ hhide hnodup, hplain]

/-- Witness of C5 on the sample settings: the reply carries null for
`secret`, and the socket under another secret gets the same reply. -/
theorem getSettings_reply_hides_secret_witness :
    (Socket.sample.settings.inspect.map Prod.fst).Nodup ∧
    Socket.sampleOtherSecret.settings.inspect ≠ Socket.sample.settings.inspect ∧
    ∃ reply,
      Socket.sample.onGetSettings = (Socket.sample, .ack (.settings reply), Effects.none) ∧
      reply.get "secret" = .null ∧
      Socket.sampleOtherSecret.onGetSettings.2.1 = .ack (.settings reply) := by
  refine ⟨by decide, by decide, ?_⟩
  obtain ⟨reply, h1, _, h3, _, h5⟩ := getSettings_reply_hides_secret Socket.sample (by decide)
  exact ⟨reply, h1, h3, h5 Socket.sampleOtherSecret (by decide)⟩

/-- C4, the code at the failing input: the sample socket and the one that
differs from it only in the value of `secret` receive the same changing
write of `maxMessageLength`; each broadcasts `settings change` with its full
snapshot, the secret in clear, so the two payloads differ. -/
theorem settings_change_broadcast_carries_secret :
    Socket.sample.settings.inspect.map hideSecret =
      Socket.sampleOtherSecret.settings.inspect.map hideSecret ∧
    (Socket.sample.onSetSettings [("maxMessageLength", .str "80")]).2.1 = .ack (.bool true) ∧
    (Socket.sample.onSetSettings [("maxMessageLength", .str "80")]).2.2.emits =
      [.all "settings change" (.settings
        [("messagesPerInterval", .num 1), ("messagesIntervalLength", .num 1000),
         ("maxMessageLength", .num 80), ("secret", .str "key")])] ∧
    (Socket.sampleOtherSecret.onSetSettings [("maxMessageLength", .str "80")]).2.2.emits =
      [.all "settings change" (.settings
        [("messagesPerInterval", .num 1), ("messagesIntervalLength", .num 1000),
         ("maxMessageLength", .num 80), ("secret", .str "other")])] ∧
    (Socket.sample.onSetSettings [("maxMessageLength", .str "80")]).2.2.emits ≠
      (Socket.sampleOtherSecret.onSetSettings [("maxMessageLength", .str "80")]).2.2.emits := by
  decide

/-! ## Editing and deleting -/

theorem findIndex_neg_iff {α : Type} (p : α → Bool) (l : List α) :
    Socket.findIndex p l < 0 ↔ ∀ x ∈ l, p x = false := by
  unfold Socket.findIndex
  constructor
  · intro h
    by_cases hlt : l.findIdx p < l.length
    · rw [if_pos hlt] at h
      omega
    · have heq : l.findIdx p = l.length :=
        Nat.le_antisymm (List.findIdx_le_length p) (Nat.le_of_not_lt hlt)
      intro x hx
      have := List.findIdx_eq_length.mp heq x hx
      simpa using this
  · intro h
    have heq : l.findIdx p = l.length := List.findIdx_eq_length_of_false h
    rw [if_neg (by omega)]
    decide

theorem findIndex_nonneg {α : Type} (p : α → Bool) (l : List α)
    (h : ¬ Socket.findIndex p l < 0) :
    l.findIdx p < l.length ∧ (Socket.findIndex p l).toNat = l.findIdx p := by
  unfold Socket.findIndex at h ⊢
  by_cases hlt : l.findIdx p < l.length
  · rw [if_pos hlt]
    exact ⟨hlt, by simp⟩
  · rw [if_neg hlt] at h
    exact absurd (by decide) h

/-- C11: `_editMessage(m)` returns true exactly when a stored record has the
id of `m`. When it returns false the state is unchanged. When it returns
true there is a position `i` holding the first record with that id, and the
new list is the old one with `m` put at `i` as a whole: the length is the
same, position `i` holds `m`, and every other position holds what it
held. -/
theorem editMessage_replaces_first (s : Socket) (m : MessageRecord) :
    ((s._editMessage m).1 = true ↔ ∃ x ∈ s.messages, x.id = m.id) ∧
    ((s._editMessage m).1 = false → (s._editMessage m).2 = s) ∧
    ((s._editMessage m).1 = true →
      ∃ i, (∃ x, s.messages[i]? = some x ∧ x.id = m.id) ∧
        (∀ j, j < i → ∀ y, s.messages[j]? = some y → y.id ≠ m.id) ∧
        (s._editMessage m).2.messages = s.messages.set i m ∧
        (s._editMessage m).2.messages.length = s.messages.length ∧
        (s._editMessage m).2.messages[i]? = some m ∧
        (∀ j, j ≠ i → (s._editMessage m).2.messages[j]? = s.messages[j]?) ∧
        (s._editMessage m).2.rateLimiter = s.rateLimiter ∧
        (s._editMessage m).2.settings = s.settings) := by
  by_cases hneg : Socket.findIndex (fun x => x.id == m.id) s.messages < 0
  · have hres : s._editMessage m = (false, s) := by
      unfold Socket._editMessage
      simp only
      rw [if_pos hneg]
    have hnone := (findIndex_neg_iff _ _).mp hneg
    rw [hres]
    refine ⟨⟨fun h => by simp at h, ?_⟩, fun _ => rfl, fun h => by simp at h⟩
    rintro ⟨x, hx, hid⟩
    have := hnone x hx
    simp [hid] at this
  · obtain ⟨hlt, hnat⟩ := findIndex_nonneg _ _ hneg
    have hres : s._editMessage m =
        (true, { s with messages :=
          s.messages.set (s.messages.findIdx (fun x => x.id == m.id)) m }) := by
      unfold Socket._editMessage
      simp only
      rw [if_neg hneg, hnat]
    have hp : (s.messages[s.messages.findIdx (fun x => x.id == m.id)]).id = m.id := by
      have := @List.findIdx_getElem _ (fun x => x.id == m.id) s.messages hlt
      simpa using this
    rw [hres]
    refine ⟨⟨fun _ => ⟨_, List.getElem_mem _, hp⟩, fun _ => rfl⟩, fun h => by simp at h,
      fun _ => ⟨s.messages.findIdx (fun x => x.id == m.id), ?_, ?_, rfl, ?_, ?_, ?_, rfl, rfl⟩⟩
    · exact ⟨_, List.getElem?_eq_getElem hlt, hp⟩
    · intro j hj y hy
      have hjlt : j < s.messages.length := Nat.lt_trans hj hlt
      have := @List.not_of_lt_findIdx _ (fun x => x.id == m.id) s.messages j hj
      rw [List.getElem?_eq_getElem hjlt] at hy
      cases hy
      simpa using this
    · simp
    · simp [List.getElem?_set, hlt]
    · intro j hj
      simp only
      rw [List.getElem?_set]
      rw [if_neg (fun h => hj h.symm)]

/-- Witness of C11: on the sample socket an unknown id changes nothing, and
the id of the second greeting has that record replaced. -/
theorem editMessage_replaces_first_witness :
    (Socket.sample._editMessage { id := "nowhere", text := "x", date := 9 }).2 = Socket.sample ∧
    ∃ i, (Socket.sample._editMessage
        { id := "0/KSET je lit", text := "KSET je super", date := 9 }).2.messages =
      Socket.sample.messages.set i { id := "0/KSET je lit", text := "KSET je super", date := 9 } :=
  ⟨(editMessage_replaces_first Socket.sample { id := "nowhere", text := "x", date := 9 }).2.1
      (by decide),
   (((editMessage_replaces_first Socket.sample
      { id := "0/KSET je lit", text := "KSET je super", date := 9 }).2.2 (by decide)).imp
      fun _ h => h.2.2.1)⟩

theorem filter_ne_eq_erase (l : List MessageRecord) (x : MessageRecord)
    (hn : (l.map (fun m => m.id)).Nodup) (hx : x ∈ l) :
    l.filter (fun m => m.id != x.id) = l.erase x := by
  induction l with
  | nil => simp at hx
  | cons a rest ih =>
    simp only [List.map_cons, List.nodup_cons] at hn
    by_cases hax : a = x
    · subst hax
      have hrest : rest.filter (fun m => m.id != a.id) = rest := by
        rw [List.filter_eq_self]
        intro y hy
        have : y.id ≠ a.id := fun h => hn.1 (h ▸ List.mem_map_of_mem (fun m => m.id) hy)
        simpa using this
      simp [List.filter_cons, hrest]
    · have hxr : x ∈ rest := by
        rcases List.mem_cons.mp hx with h | h
        · exact absurd h.symm hax
        · exact h
      have hid : a.id ≠ x.id := fun h =>
        hn.1 (h ▸ List.mem_map_of_mem (fun m => m.id) hxr)
      have hb : (a.id != x.id) = true := by simpa using hid
      rw [List.filter_cons, if_pos hb, ih hn.2 hxr, List.erase_cons_tail]
      simpa using hax

/-- C12: `_deleteMessage(id)` returns, and stores, the records whose id
differs from `id`, in their original order. When no record has that id the
list is unchanged. When the stored ids are pairwise distinct and one record
has that id, exactly that record is removed and the length decreases by
one. -/
theorem deleteMessage_removes_id (s : Socket) (id : String) :
    (s._deleteMessage id).1 = s.messages.filter (fun m => m.id != id) ∧
    (s._deleteMessage id).2.messages = (s._deleteMessage id).1 ∧
    (s._deleteMessage id).1.Sublist s.messages ∧
    (∀ m, m ∈ (s._deleteMessage id).1 ↔ m ∈ s.messages ∧ m.id ≠ id) ∧
    ((∀ m ∈ s.messages, m.id ≠ id) → (s._deleteMessage id).1 = s.messages) ∧
    ((s.messages.map (fun m => m.id)).Nodup → ∀ x ∈ s.messages, x.id = id →
      (s._deleteMessage id).1 = s.messages.erase x ∧
      (s._deleteMessage id).1.length + 1 = s.messages.length) ∧
    (s._deleteMessage id).2.rateLimiter = s.rateLimiter ∧
    (s._deleteMessage id).2.settings = s.settings := by
  refine ⟨rfl, rfl, List.filter_sublist _, ?_, ?_, ?_, rfl, rfl⟩
  · intro m
    simp [Socket._deleteMessage]
  · intro h
    simp only [Socket._deleteMessage]
    rw [List.filter_eq_self]
    intro m hm
    simpa using h m hm
  · intro hn x hx hid
    have h := filter_ne_eq_erase s.messages x hn hx
    rw [hid] at h
    simp only [Socket._deleteMessage]
    rw [h]
    refine ⟨rfl, ?_⟩
    rw [List.length_erase_of_mem hx]
    have : 0 < s.messages.length := List.length_pos_of_mem hx
    omega

/-- Witness of C12: deleting the second greeting of the sample socket, whose
ids are distinct, leaves the other two in order. -/
theorem deleteMessage_removes_id_witness :
    (Socket.sample.messages.map (fun m => m.id)).Nodup ∧
    (Socket.sample._deleteMessage "0/KSET je lit").1 =
      Socket.sample.messages.erase { id := "0/KSET je lit", text := "KSET je lit", date := 0 } ∧
    (Socket.sample._deleteMessage "0/KSET je lit").1.length + 1 = Socket.sample.messages.length :=
  ⟨by decide,
   (deleteMessage_removes_id Socket.sample "0/KSET je lit").2.2.2.2.2.1 (by decide)
     { id := "0/KSET je lit", text := "KSET je lit", date := 0 } (by decide) rfl⟩

/-! ## `sendMessage` with and without identity -/

theorem truthy_false_iff (id : Identity) : id.truthy = false ↔ id = none ∨ id = some "" := by
  cases id with
  | none => simp [Identity.truthy]
  | some i => simp [Identity.truthy]

/-- C17: without identity (absent or empty) and with a text whose trimmed
length is at least two, `sendMessage` returns true whatever the rate limiter
holds, leaves the rate limiter and the settings unchanged, puts the new
record at the head of the message list and emits exactly one global
`new message` carrying that record; the handler of `add message admin` is
this call with no identity. -/
theorem sendMessage_without_identity (s : Socket) (w : World) (id : Identity) (text : String)
    (hid : id = none ∨ id = some "") (h : 2 ≤ jsLength (jsTrim text)) :
    (s.sendMessage w id text).1 = true ∧
    (s.sendMessage w id text).2.1.rateLimiter = s.rateLimiter ∧
    (s.sendMessage w id text).2.1.settings = s.settings ∧
    (s.sendMessage w id text).2.1.messages.head? =
      some (w.newMessage (jsTrim text) (some s.maxMessageLength)) ∧
    (s.sendMessage w id text).2.1.messages = (s.addMessage w (jsTrim text)).2.messages ∧
    (s.sendMessage w id text).2.2 =
      { emits := [.all "new message"
          (.message (w.newMessage (jsTrim text) (some s.maxMessageLength)))],
        fired := [], calls := [] } ∧
    s.onAddMessageAdmin w text =
      ((s.sendMessage w none text).2.1, .ack (.bool true), (s.sendMessage w none text).2.2) := by
  have hres := sendMessage_no_identity s w id text h ((truthy_false_iff id).mpr hid)
  have hnone := sendMessage_no_identity s w none text h rfl
  refine ⟨?_, ?_, ?_, ?_, ?_, ?_, ?_⟩
  · rw [hres]
  · rw [hres]
    rfl
  · rw [hres]
    rfl
  · rw [hres]
    exact addMessage_head s w (jsTrim text)
  · rw [hres]
  · rw [hres]
    rfl
  · simp only [Socket.onAddMessageAdmin, hnone]

/-- Witness of C17: on the sample socket whose only identity has used up its
quota, a message without identity is accepted. -/
theorem sendMessage_without_identity_witness :
    (Socket.sampleSpent.sendMessage (World.atTime 6) (some "") "  svima  ").1 = true ∧
    (Socket.sampleSpent.sendMessage (World.atTime 6) (some "") "  svima  ").2.1.rateLimiter =
      Socket.sampleSpent.rateLimiter :=
  ⟨(sendMessage_without_identity Socket.sampleSpent (World.atTime 6) (some "") "  svima  "
      (Or.inr rfl) (by decide)).1,
   (sendMessage_without_identity Socket.sampleSpent (World.atTime 6) (some "") "  svima  "
      (Or.inr rfl) (by decide)).2.1⟩

/-- C18: for a non-empty identity, `sendMessage` returns true exactly when
the trimmed text has length at least two and the identity's entry reports
`can = true`. When it returns true the limiter is the one after a single
`update` of that entry and exactly one global `new message` is emitted. When
it returns false nothing is emitted and no `update` happened: the limiter
is the previous one, at most with the identity's fresh entry added by
`getOrCreate`. -/
theorem sendMessage_with_identity (s : Socket) (w : World) (id : Identity) (text : String)
    (hid : id.truthy = true) :
    ((s.sendMessage w id text).1 = true ↔
      2 ≤ jsLength (jsTrim text) ∧
        (s.rateLimiter.getOrCreate w.now id).2.can w.now
          (s.rateLimiter.getOrCreate w.now id).1 = true) ∧
    ((s.sendMessage w id text).1 = true →
      (s.sendMessage w id text).2.1.rateLimiter =
        (s.rateLimiter.getOrCreate w.now id).2.update w.now
          (s.rateLimiter.getOrCreate w.now id).1 ∧
      (s.sendMessage w id text).2.2 =
        { emits := [.all "new message"
            (.message (w.newMessage (jsTrim text) (some s.maxMessageLength)))],
          fired := [], calls := [] }) ∧
    ((s.sendMessage w id text).1 = false →
      (s.sendMessage w id text).2.2 = Effects.none ∧
      ((s.sendMessage w id text).2.1.rateLimiter = s.rateLimiter ∨
        (s.sendMessage w id text).2.1.rateLimiter = (s.rateLimiter.getOrCreate w.now id).2)) := by
  by_cases h : 2 ≤ jsLength (jsTrim text)
  · cases hcan : (s.rateLimiter.getOrCreate w.now id).2.can w.now
        (s.rateLimiter.getOrCreate w.now id).1 with
    | false =>
      rw [sendMessage_limited s w id text h hid hcan]
      refine ⟨⟨fun hf => by simp at hf, fun hf => by simp at hf⟩, fun hf => by simp at hf,
        fun _ => ⟨rfl, Or.inr rfl⟩⟩
    | true =>
      rw [sendMessage_allowed s w id text h hid hcan]
      refine ⟨⟨fun _ => ⟨h, rfl⟩, fun _ => rfl⟩, fun _ => ⟨rfl, rfl⟩,
        fun hf => by simp at hf⟩
  · rw [sendMessage_short s w id text (by omega)]
    refine ⟨⟨fun hf => by simp at hf, fun hf => absurd hf.1 h⟩, fun hf => by simp at hf,
      fun _ => ⟨rfl, Or.inl rfl⟩⟩

/-- Witness of C18: the first message of identity `u1` on the sample socket
is accepted and counted. -/
theorem sendMessage_with_identity_witness :
    (Socket.sample.sendMessage (World.atTime 5) (some "u1") "hello").1 = true ∧
    (Socket.sample.sendMessage (World.atTime 5) (some "u1") "hello").2.1.rateLimiter.entries =
      [{ identity := some "u1", windowStart := 5, count := 1 }] := by
  have h := sendMessage_with_identity Socket.sample (World.atTime 5) (some "u1") "hello"
    (by decide)
  have h1 : (Socket.sample.sendMessage (World.atTime 5) (some "u1") "hello").1 = true :=
    h.1.mpr (by decide)
  refine ⟨h1, ?_⟩
  rw [(h.2.1 h1).1]
  decide

/-! ## The listener registry -/

theorem find_setEventList (l : List (String × List Listener)) (k e : String)
    (v : List Listener) :
    (Socket.setEventList l k v).find? (fun x => x.1 == e) =
      if k = e then some (k, v) else l.find? (fun x => x.1 == e) := by
  induction l with
  | nil =>
    by_cases hk : k = e
    · simp [Socket.setEventList, hk]
    · simp [Socket.setEventList, hk]
  | cons a rest ih =>
    obtain ⟨k', v'⟩ := a
    simp only [Socket.setEventList]
    by_cases hkk : k' = k
    · rw [if_pos hkk]
      subst hkk
      by_cases hk : k' = e
      · simp [hk]
      · simp [List.find?_cons, hk]
    · rw [if_neg hkk]
      by_cases hk : k = e
      · subst hk
        have hb : ((k' == k) = false) := by simpa using hkk
        rw [List.find?_cons]
        simp only [hb]
        rw [ih]
        simp
      · rw [if_neg hk] at ih ⊢
        rw [List.find?_cons, List.find?_cons, ih]

theorem contains_false_of_not_mem (l : List String) (x : String) (h : x ∉ l) :
    l.contains x = false := by
  cases hc : l.contains x with
  | false => rfl
  | true => exact absurd (by simpa using hc) h

theorem eventList_of_plain (s : Socket) (e : String)
    (h : Socket.objectPrototypeNames.contains e = false) :
    s._eventList e = some (s.listeners e) := by
  unfold Socket._eventList
  rw [h, Bool.false_and]
  rfl

theorem event_of_plain (s : Socket) (e : String) (data : Payload)
    (h : Socket.objectPrototypeNames.contains e = false) :
    s._event e data = some (s.dispatch (s.listeners e) e data) := by
  simp only [Socket._event, eventList_of_plain s e h]

theorem on_of_plain (s : Socket) (event : String) (fn : Listener)
    (h : Socket.objectPrototypeNames.contains event = false) :
    s.on' event fn =
      some { s with events := Socket.setEventList s.events event (s.listeners event ++ [fn]) } := by
  simp only [Socket.on', eventList_of_plain s event h]

theorem listeners_setEventList (s : Socket) (event : String) (fn : Listener) (e : String) :
    ({ s with events := Socket.setEventList s.events event (s.listeners event ++ [fn]) } :
        Socket).listeners e =
      if event = e then s.listeners e ++ [fn] else s.listeners e := by
  simp only [Socket.listeners, find_setEventList]
  by_cases hk : event = e
  · subst hk
    simp
  · simp [hk]

theorem registerAll_of_plain (regs : List (String × Listener)) :
    ∀ s : Socket, (∀ r ∈ regs, Socket.objectPrototypeNames.contains r.1 = false) →
      ∃ s', s.registerAll regs = some s' ∧
        ∀ e, s'.listeners e =
          s.listeners e ++ (regs.filter (fun r => r.1 == e)).map (fun r => r.2) := by
  induction regs with
  | nil => intro s _; exact ⟨s, rfl, fun e => by simp⟩
  | cons r rest ih =>
    intro s h
    have hr := on_of_plain s r.1 r.2 (h r (List.mem_cons_self _ _))
    obtain ⟨s', hs', hl⟩ := ih
      { s with events := Socket.setEventList s.events r.1 (s.listeners r.1 ++ [r.2]) }
      (fun x hx => h x (List.mem_cons_of_mem _ hx))
    refine ⟨s', ?_, ?_⟩
    · simp only [Socket.registerAll, hr]
      exact hs'
    · intro e
      rw [hl e, listeners_setEventList]
      by_cases hk : r.1 = e
      · simp [hk, List.filter_cons]
      · simp [hk, List.filter_cons]

/-- C19, as stated, fails: on an empty registry nothing is registered under
`toString`, yet `_event('toString', data)` does not call nothing, it raises,
because the read of `this.events.toString` yields the method inherited from
`Object.prototype` and not a list; `on('constructor', fn)` raises for the
same reason, so that registration never takes place. -/
theorem event_raises_on_inherited_name :
    Socket.sampleNoListeners.events = [] ∧
    Socket.sampleNoListeners._eventList "toString" = none ∧
    (Socket.sampleNoListeners._event "toString" (.value (.num 7))).isNone = true ∧
    ( Socket.sampleNoListeners.on' "constructor" (.external 1)).isNone = true ∧
    (Socket.sampleNoListeners.registerAll [("constructor", .external 1)]).isNone = true := by
  decide

/-- C19, amended: for registrations and an event name `e` none of which is
the name of a member of `Object.prototype`, every `on(event, fn)` succeeds
and `_event(e, data)` then calls the listeners that were under `e` before,
followed by the listeners registered under `e`, once per registration and in
registration order, each with `data`, and fires that one event. On a
registry that started empty the calls are exactly the registrations under
`e`: listeners under other names are not called, and without a registration
under `e` nothing is called. -/
theorem event_calls_registered_listeners (s : Socket) (regs : List (String × Listener))
    (e : String) (data : Payload)
    (hregs : ∀ r ∈ regs, r.1 ∉ Socket.objectPrototypeNames)
    (he : e ∉ Socket.objectPrototypeNames) :
    ∃ s' r, s.registerAll regs = some s' ∧ s'._event e data = some r ∧
      r.2.calls =
        (s.listeners e ++ (regs.filter (fun x => x.1 == e)).map (fun x => x.2)).map
          (fun fn => (fn, data)) ∧
      r.2.fired = [(e, data)] ∧
      r.2.emits = [] ∧
      (s.events = [] →
        r.2.calls = (regs.filter (fun x => x.1 == e)).map (fun x => (x.2, data)) ∧
        ((∀ x ∈ regs, x.1 ≠ e) → r.2.calls = [])) := by
  obtain ⟨s', hs', hl⟩ := registerAll_of_plain regs s
    (fun r hr => contains_false_of_not_mem _ _ (hregs r hr))
  have hev := event_of_plain s' e data (contains_false_of_not_mem _ _ he)
  have hcalls : (s'.dispatch (s'.listeners e) e data).2.calls =
      (s.listeners e ++ (regs.filter (fun x => x.1 == e)).map (fun x => x.2)).map
        (fun fn => (fn, data)) := by
    simp only [Socket.dispatch, hl e]
  refine ⟨s', _, hs', hev, hcalls, rfl, rfl, ?_⟩
  intro hempty
  have hnil : s.listeners e = [] := by simp [Socket.listeners, hempty]
  have hall : (s'.dispatch (s'.listeners e) e data).2.calls =
      (regs.filter (fun x => x.1 == e)).map (fun x => (x.2, data)) := by
    rw [hcalls, hnil]
    simp [List.map_map, Function.comp]
  refine ⟨hall, ?_⟩
  intro hne
  rw [hall]
  have : regs.filter (fun x => x.1 == e) = [] := by
    rw [List.filter_eq_nil_iff]
    intro x hx
    simpa using hne x hx
  rw [this]
  rfl

/-- Witness of C19 as amended: three registrations under two names on an
empty registry. -/
theorem event_calls_registered_listeners_witness :
    ∃ s' r, Socket.sampleNoListeners.registerAll
        [("a", .external 1), ("b", .external 2), ("a", .external 3)] = some s' ∧
      s'._event "a" (.value (.num 7)) = some r ∧
      r.2.calls = [(.external 1, .value (.num 7)), (.external 3, .value (.num 7))] := by
  obtain ⟨s', r, h1, h2, _, _, _, h6⟩ := event_calls_registered_listeners
    Socket.sampleNoListeners [("a", .external 1), ("b", .external 2), ("a", .external 3)] "a"
    (.value (.num 7)) (by decide) (by decide)
  exact ⟨s', r, h1, h2, (h6 rfl).1.trans (by decide)⟩

/-! ## Writing settings -/

theorem runListener_settings (s : Socket) (fn : Listener) (data : Payload) :
    (s.runListener fn data).settings = s.settings ∧
    (s.runListener fn data).events = s.events ∧
    (s.runListener fn data).messages = s.messages := by
  cases fn with
  | updateRateLimiter => cases data <;> exact ⟨rfl, rfl, rfl⟩
  | external tag => exact ⟨rfl, rfl, rfl⟩

theorem foldl_runListener_settings (fns : List Listener) (data : Payload) :
    ∀ s : Socket,
      (fns.foldl (fun acc fn => Socket.runListener acc fn data) s).settings = s.settings ∧
      (fns.foldl (fun acc fn => Socket.runListener acc fn data) s).events = s.events ∧
      (fns.foldl (fun acc fn => Socket.runListener acc fn data) s).messages = s.messages := by
  induction fns with
  | nil => intro s; exact ⟨rfl, rfl, rfl⟩
  | cons fn rest ih =>
    intro s
    obtain ⟨h1, h2, h3⟩ := ih (s.runListener fn data)
    obtain ⟨g1, g2, g3⟩ := runListener_settings s fn data
    simp only [List.foldl_cons]
    exact ⟨h1.trans g1, h2.trans g2, h3.trans g3⟩

theorem dispatch_settings (s : Socket) (fns : List Listener) (event : String) (data : Payload) :
    (s.dispatch fns event data).1.settings = s.settings :=
  (foldl_runListener_settings fns data s).1

theorem dispatch_events (s : Socket) (fns : List Listener) (event : String) (data : Payload) :
    (s.dispatch fns event data).1.events = s.events :=
  (foldl_runListener_settings fns data s).2.1

theorem dispatch_messages (s : Socket) (fns : List Listener) (event : String) (data : Payload) :
    (s.dispatch fns event data).1.messages = s.messages :=
  (foldl_runListener_settings fns data s).2.2

theorem dispatch_fired (s : Socket) (fns : List Listener) (event : String) (data : Payload) :
    (s.dispatch fns event data).2.fired = [(event, data)] := rfl

theorem dispatch_emits (s : Socket) (fns : List Listener) (event : String) (data : Payload) :
    (s.dispatch fns event data).2.emits = [] := rfl

theorem head_not_s : ∀ n ∈ Socket.objectPrototypeNames, n.data.head? ≠ some 's' := by
  decide

theorem settings_change_plain :
    Socket.objectPrototypeNames.contains "settings change" = false := by
  decide

theorem settings_change_key_plain (key : String) :
    Socket.objectPrototypeNames.contains ("settings change:" ++ key) = false := by
  apply contains_false_of_not_mem
  intro hmem
  apply head_not_s _ hmem
  rw [String.data_append]
  rfl

theorem fireKeys_settings (settings : JObject) (keys : List String) :
    ∀ s : Socket,
      (s.fireKeys settings keys).1.settings = s.settings ∧
      (s.fireKeys settings keys).1.events = s.events ∧
      (s.fireKeys settings keys).1.messages = s.messages ∧
      (s.fireKeys settings keys).2.1.fired =
        keys.map (fun key => ("settings change:" ++ key, Payload.value (settings.get key))) ∧
      (s.fireKeys settings keys).2.1.emits = [] ∧
      (s.fireKeys settings keys).2.2 = false := by
  induction keys with
  | nil => intro s; exact ⟨rfl, rfl, rfl, rfl, rfl, rfl⟩
  | cons key rest ih =>
    intro s
    obtain ⟨h1, h2, h3, h4, h5, h6⟩ :=
      ih (s.dispatch (s.listeners ("settings change:" ++ key)) ("settings change:" ++ key)
        (.value (settings.get key))).1
    have hstep : s.fireKeys settings (key :: rest) =
        (((s.dispatch (s.listeners ("settings change:" ++ key)) ("settings change:" ++ key)
            (.value (settings.get key))).1.fireKeys settings rest).1,
          (s.dispatch (s.listeners ("settings change:" ++ key)) ("settings change:" ++ key)
            (.value (settings.get key))).2.append
            ((s.dispatch (s.listeners ("settings change:" ++ key)) ("settings change:" ++ key)
              (.value (settings.get key))).1.fireKeys settings rest).2.1,
          ((s.dispatch (s.listeners ("settings change:" ++ key)) ("settings change:" ++ key)
            (.value (settings.get key))).1.fireKeys settings rest).2.2) := by
      simp only [Socket.fireKeys, event_of_plain s _ _ (settings_change_key_plain key)]
    rw [hstep]
    refine ⟨h1.trans (dispatch_settings _ _ _ _), h2.trans (dispatch_events _ _ _ _),
      h3.trans (dispatch_messages _ _ _ _), ?_, ?_, h6⟩
    · show ((s.dispatch _ _ _).2.fired ++ _) = _
      rw [h4]
      rfl
    · show ((s.dispatch _ _ _).2.emits ++ _) = _
      rw [h5]
      rfl

theorem coercedSettings_eq_assign (st : Settings) (newSettings : JObject) :
    Socket.coercedSettings st newSettings =
      JObject.assign []
        ((newSettings.filter (fun e =>
            ((st.types.map (fun t => t.1)).find? (fun k => k == e.1)).isSome)).map
          (fun e => (e.1, st.coerce e.1 e.2))) := rfl

theorem coercedSettings_keys_nodup (st : Settings) (newSettings : JObject) :
    ((Socket.coercedSettings st newSettings).map Prod.fst).Nodup := by
  rw [coercedSettings_eq_assign]
  exact assign_keys_nodup _ [] (by simp)

theorem get_of_mem (o : JObject) (h : (o.map Prod.fst).Nodup) (k : String) (v : JVal)
    (hm : (k, v) ∈ o) : o.get k = v := by
  induction o with
  | nil => simp at hm
  | cons e rest ih =>
    obtain ⟨k', v'⟩ := e
    simp only [List.map_cons, List.nodup_cons] at h
    rcases List.mem_cons.mp hm with heq | hmem
    · cases heq
      simp [JObject.get]
    · have hne : k' ≠ k := by
        intro hk
        apply h.1
        rw [hk]
        exact List.mem_map_of_mem Prod.fst hmem
      have hb : ((k' == k) = false) := by simpa using hne
      have := ih h.2 hmem
      simp only [JObject.get, List.find?_cons, hb] at this ⊢
      exact this

theorem get_of_not_mem (o : JObject) (k : String) (h : k ∉ o.map Prod.fst) :
    o.get k = .undefined := by
  induction o with
  | nil => rfl
  | cons e rest ih =>
    obtain ⟨k', v'⟩ := e
    simp only [List.map_cons, List.mem_cons, not_or] at h
    have hb : ((k' == k) = false) := by simpa using (Ne.symm h.1)
    have := ih h.2
    simp only [JObject.get, List.find?_cons, hb] at this ⊢
    exact this

theorem get_assign_of_not_mem (source : JObject) (k : String) :
    ∀ target : JObject, k ∉ source.map Prod.fst →
      (JObject.assign target source).get k = target.get k := by
  induction source with
  | nil => intro target _; rfl
  | cons e rest ih =>
    intro target h
    simp only [List.map_cons, List.mem_cons, not_or] at h
    have hstep : JObject.assign target (e :: rest) =
        JObject.assign (JObject.set target e.1 e.2) rest := rfl
    rw [hstep, ih _ h.2, get_set_other _ _ _ _ h.1]

theorem get_assign_of_mem (source : JObject) :
    ∀ (target : JObject) (k : String) (v : JVal), (source.map Prod.fst).Nodup →
      (k, v) ∈ source → (JObject.assign target source).get k = v := by
  induction source with
  | nil => intro target k v _ hm; simp at hm
  | cons e rest ih =>
    intro target k v hn hm
    simp only [List.map_cons, List.nodup_cons] at hn
    have hstep : JObject.assign target (e :: rest) =
        JObject.assign (JObject.set target e.1 e.2) rest := rfl
    rw [hstep]
    rcases List.mem_cons.mp hm with heq | hmem
    · subst heq
      rw [get_assign_of_not_mem rest k _ hn.1, get_set_self]
    · exact ih _ k v hn.2 hmem

theorem mem_keys_set (o : JObject) (k k' : String) (v : JVal)
    (h : k ∈ (JObject.set o k' v).map Prod.fst) : k ∈ o.map Prod.fst ∨ k = k' := by
  induction o with
  | nil =>
    simp only [JObject.set, List.map_cons, List.map_nil, List.mem_singleton] at h
    exact Or.inr h
  | cons e rest ih =>
    obtain ⟨k₁, v₁⟩ := e
    simp only [JObject.set] at h
    by_cases hk : k₁ = k'
    · rw [if_pos hk] at h
      exact Or.inl h
    · rw [if_neg hk] at h
      simp only [List.map_cons, List.mem_cons] at h ⊢
      rcases h with h | h
      · exact Or.inl (Or.inl h)
      · rcases ih h with h' | h'
        · exact Or.inl (Or.inr h')
        · exact Or.inr h'

theorem mem_keys_assign (source : JObject) (k : String) :
    ∀ target : JObject, k ∈ (JObject.assign target source).map Prod.fst →
      k ∈ target.map Prod.fst ∨ k ∈ source.map Prod.fst := by
  induction source with
  | nil => intro target h; exact Or.inl h
  | cons e rest ih =>
    intro target h
    have hstep : JObject.assign target (e :: rest) =
        JObject.assign (JObject.set target e.1 e.2) rest := rfl
    rw [hstep] at h
    simp only [List.map_cons, List.mem_cons]
    rcases ih _ h with h' | h'
    · rcases mem_keys_set _ _ _ _ h' with h'' | h''
      · exact Or.inl h''
      · exact Or.inr (Or.inl h'')
    · exact Or.inr (Or.inr h')

theorem mem_keys_coercedSettings (st : Settings) (newSettings : JObject) (k : String)
    (h : k ∈ (Socket.coercedSettings st newSettings).map Prod.fst) :
    k ∈ newSettings.map Prod.fst ∧ k ∈ st.types.map Prod.fst := by
  rw [coercedSettings_eq_assign] at h
  rcases mem_keys_assign _ k [] h with h' | h'
  · simp at h'
  · simp only [List.map_map, List.mem_map, List.mem_filter, Function.comp] at h'
    obtain ⟨e, ⟨he, hrec⟩, hk⟩ := h'
    subst hk
    refine ⟨List.mem_map_of_mem Prod.fst he, ?_⟩
    rw [Option.isSome_iff_exists] at hrec
    obtain ⟨k', hk'⟩ := hrec
    have hmem := List.mem_of_find?_eq_some hk'
    have hp := List.find?_some hk'
    have : k' = e.1 := by simpa using hp
    rw [this] at hmem
    simpa using hmem

theorem onSetSettings_of_unchanged (s : Socket) (newSettings : JObject)
    (h : Socket.hasChanged s.settings (Socket.coercedSettings s.settings newSettings) = false) :
    s.onSetSettings newSettings = (s, .ack (.bool false), Effects.none) := by
  unfold Socket.onSetSettings
  simp only [h]
  rfl

theorem onSetSettings_of_changed (s : Socket) (newSettings : JObject)
    (h : Socket.hasChanged s.settings (Socket.coercedSettings s.settings newSettings) = true) :
    (s.onSetSettings newSettings).2.1 = .ack (.bool true) ∧
    (s.onSetSettings newSettings).1.settings =
      { s.settings with
        _args := JObject.assign s.settings._args
          (Socket.coercedSettings s.settings newSettings) } ∧
    (s.onSetSettings newSettings).1.messages = s.messages ∧
    (s.onSetSettings newSettings).1.events = s.events ∧
    (s.onSetSettings newSettings).2.2.fired =
      ("settings change",
        Payload.settings (JObject.assign s.settings._args
          (Socket.coercedSettings s.settings newSettings))) ::
        (Socket.coercedSettings s.settings newSettings).map
          (fun e => ("settings change:" ++ e.1, Payload.value e.2)) ∧
    (s.onSetSettings newSettings).2.2.emits =
      [.all "settings change"
        (.settings (JObject.assign s.settings._args
          (Socket.coercedSettings s.settings newSettings)))] := by
  have hkeys : ((Socket.coercedSettings s.settings newSettings).map (fun e => e.1)).map
        (fun key => ("settings change:" ++ key,
          Payload.value ((Socket.coercedSettings s.settings newSettings).get key))) =
      (Socket.coercedSettings s.settings newSettings).map
        (fun e => ("settings change:" ++ e.1, Payload.value e.2)) := by
    rw [List.map_map]
    apply List.map_congr_left
    intro e he
    simp only [Function.comp]
    rw [get_of_mem _ (coercedSettings_keys_nodup _ _) e.1 e.2 he]
  have hraise : ∀ (x : Socket) (o : JObject) (l : List String), (x.fireKeys o l).2.2 = false :=
    fun x o l => (fireKeys_settings o l x).2.2.2.2.2
  have hfs : ∀ (x : Socket) (o : JObject) (l : List String),
      (x.fireKeys o l).1.settings = x.settings := fun x o l => (fireKeys_settings o l x).1
  have hfe : ∀ (x : Socket) (o : JObject) (l : List String),
      (x.fireKeys o l).1.events = x.events := fun x o l => (fireKeys_settings o l x).2.1
  have hfm : ∀ (x : Socket) (o : JObject) (l : List String),
      (x.fireKeys o l).1.messages = x.messages := fun x o l => (fireKeys_settings o l x).2.2.1
  have hff : ∀ (x : Socket) (o : JObject) (l : List String),
      (x.fireKeys o l).2.1.fired =
        l.map (fun key => ("settings change:" ++ key, Payload.value (o.get key))) :=
    fun x o l => (fireKeys_settings o l x).2.2.2.1
  have hfem : ∀ (x : Socket) (o : JObject) (l : List String),
      (x.fireKeys o l).2.1.emits = [] := fun x o l => (fireKeys_settings o l x).2.2.2.2.1
  unfold Socket.onSetSettings
  simp only [h, Bool.not_true, Bool.false_eq_true, if_false,
    event_of_plain _ _ _ settings_change_plain, hraise]
  refine ⟨trivial, ?_, ?_, ?_, ?_, ?_⟩
  · rw [hfs, dispatch_settings]
  · rw [hfm, dispatch_messages]
  · rw [hfe, dispatch_events]
  · simp only [Effects.append, Socket.send, List.append_nil]
    rw [hff, hkeys, dispatch_fired]
    rfl
  · simp only [Effects.append, Socket.send]
    rw [hfem, dispatch_emits, hfs, dispatch_settings]
    rfl

theorem strictEq_self (v : JVal) (h : v ≠ .nan) : JVal.strictEq v v = true := by
  cases v <;> simp [JVal.strictEq] at h ⊢

theorem recognized_eq_mem (l : List String) (x : String) :
    (l.find? (fun k => k == x)).isSome = decide (x ∈ l) := by
  induction l with
  | nil => simp
  | cons a rest ih =>
    by_cases h : a = x
    · simp [List.find?_cons, h]
    · have hb : ((a == x) = false) := by simpa using h
      rw [List.find?_cons]
      simp only [hb]
      rw [ih]
      have hx : ¬ x = a := fun hh => h hh.symm
      simp [hx]

theorem coercedSettings_of_nodup (st : Settings) (newSettings : JObject)
    (hn : (newSettings.map Prod.fst).Nodup) :
    Socket.coercedSettings st newSettings =
      (newSettings.filter (fun e => decide (e.1 ∈ st.types.map Prod.fst))).map
        (fun e => (e.1, st.coerce e.1 e.2)) := by
  have hfilter : newSettings.filter (fun e =>
        ((st.types.map (fun t => t.1)).find? (fun k => k == e.1)).isSome) =
      newSettings.filter (fun e => decide (e.1 ∈ st.types.map Prod.fst)) := by
    apply List.filter_congr
    intro e _
    exact recognized_eq_mem _ _
  rw [coercedSettings_eq_assign, hfilter]
  have hkeys : ((newSettings.filter (fun e => decide (e.1 ∈ st.types.map Prod.fst))).map
      (fun e => (e.1, st.coerce e.1 e.2))).map Prod.fst =
      (newSettings.filter (fun e => decide (e.1 ∈ st.types.map Prod.fst))).map Prod.fst := by
    rw [List.map_map]
    rfl
  have hnodup : ((([] : JObject) ++
      (newSettings.filter (fun e => decide (e.1 ∈ st.types.map Prod.fst))).map
        (fun e => (e.1, st.coerce e.1 e.2))).map Prod.fst).Nodup := by
    rw [List.nil_append, hkeys]
    exact List.Nodup.sublist (List.Sublist.map _ (List.filter_sublist _)) hn
  rw [assign_of_nodup _ [] hnodup, List.nil_append]

/-- C13, as stated, fails: the write of `messagesPerInterval: 'x'` on the
sample socket coerces to `NaN`, which is never strictly equal to the stored
`NaN`; the same write a second time acknowledges true again, fires the
events again and broadcasts again. -/
theorem setSettings_twice_changes_again :
    (Socket.sample.onSetSettings [("messagesPerInterval", .str "x")]).2.1 = .ack (.bool true) ∧
    ((Socket.sample.onSetSettings [("messagesPerInterval", .str "x")]).1.onSetSettings
        [("messagesPerInterval", .str "x")]).2.1 = .ack (.bool true) ∧
    ((Socket.sample.onSetSettings [("messagesPerInterval", .str "x")]).1.onSetSettings
        [("messagesPerInterval", .str "x")]).2.2.fired =
      [("settings change", .settings
          [("messagesPerInterval", .nan), ("messagesIntervalLength", .num 1000),
           ("maxMessageLength", .num 50), ("secret", .str "key")]),
       ("settings change:messagesPerInterval", .value .nan)] ∧
    ((Socket.sample.onSetSettings [("messagesPerInterval", .str "x")]).1.onSetSettings
        [("messagesPerInterval", .str "x")]).2.2.emits =
      [.all "settings change" (.settings
          [("messagesPerInterval", .nan), ("messagesIntervalLength", .num 1000),
           ("maxMessageLength", .num 50), ("secret", .str "key")])] := by
  decide

/-- C13, amended: when none of the coerced values of the write is `NaN`,
performing the same `set settings` write a second time is a no-op: it
acknowledges false, leaves the whole state as the first write left it,
fires no internal event and broadcasts nothing. -/
theorem setSettings_twice_is_noop (s : Socket) (newSettings : JObject)
    (hnan : ∀ e ∈ Socket.coercedSettings s.settings newSettings, e.2 ≠ .nan) :
    (s.onSetSettings newSettings).1.onSetSettings newSettings =
      ((s.onSetSettings newSettings).1, .ack (.bool false), Effects.none) := by
  cases h : Socket.hasChanged s.settings (Socket.coercedSettings s.settings newSettings) with
  | false =>
    rw [onSetSettings_of_unchanged s newSettings h]
    exact onSetSettings_of_unchanged s newSettings h
  | true =>
    obtain ⟨_, c2, _⟩ := onSetSettings_of_changed s newSettings h
    apply onSetSettings_of_unchanged
    rw [c2]
    have hco : ∀ args : JObject,
        Socket.coercedSettings { s.settings with _args := args } newSettings =
          Socket.coercedSettings s.settings newSettings := fun _ => rfl
    rw [hco]
    simp only [Socket.hasChanged, List.any_eq_false, Bool.not_eq_true', Bool.not_eq_false',
      not_not, Bool.not_eq_true, Bool.not_eq_eq_eq_not, Bool.not_true, Bool.not_false]
    intro e he
    have hget : (JObject.assign s.settings._args
        (Socket.coercedSettings s.settings newSettings)).get e.1 = e.2 :=
      get_assign_of_mem _ _ e.1 e.2 (coercedSettings_keys_nodup _ _) he
    simp only [Settings.get]
    rw [hget, strictEq_self e.2 (hnan e he)]
    decide

/-- Witness of C13 as amended: the write of `messagesPerInterval: '5'` on the
sample socket, done twice. -/
theorem setSettings_twice_is_noop_witness :
    ((Socket.sample.onSetSettings [("messagesPerInterval", .str "5")]).1.onSetSettings
        [("messagesPerInterval", .str "5")]).2 = (.ack (.bool false), Effects.none) := by
  rw [setSettings_twice_is_noop Socket.sample [("messagesPerInterval", .str "5")] (by decide)]

/-- C14, as stated, fails: the write of `messagesPerInterval: '5'` together
with `maxMessageLength: '50'` on the sample socket changes the first field
only, the second already holds 50; yet `settings change:maxMessageLength`
is fired as well. -/
theorem setSettings_fires_unchanged_field :
    Socket.sample.settings.get "maxMessageLength" = .num 50 ∧
    Socket.sample.settings.coerce "maxMessageLength" (.str "50") = .num 50 ∧
    (Socket.sample.onSetSettings
        [("messagesPerInterval", .str "5"), ("maxMessageLength", .str "50")]).2.1 =
      .ack (.bool true) ∧
    (Socket.sample.onSetSettings
        [("messagesPerInterval", .str "5"), ("maxMessageLength", .str "50")]).2.2.fired =
      [("settings change", .settings
          [("messagesPerInterval", .num 5), ("messagesIntervalLength", .num 1000),
           ("maxMessageLength", .num 50), ("secret", .str "key")]),
       ("settings change:messagesPerInterval", .value (.num 5)),
       ("settings change:maxMessageLength", .value (.num 50))] := by
  decide

/-- C14, amended: on a `set settings` write that changes at least one value,
the internal events fired are exactly the generic `settings change` once,
with the new settings, followed by one `settings change:<field>` event with
the coerced value for each recognized written field, changed or not, in the
enumeration order of the written fields. -/
theorem setSettings_fires_written_fields (s : Socket) (newSettings : JObject)
    (hn : (newSettings.map Prod.fst).Nodup)
    (h : Socket.hasChanged s.settings (Socket.coercedSettings s.settings newSettings) = true) :
    (s.onSetSettings newSettings).2.2.fired =
      ("settings change", Payload.settings (s.onSetSettings newSettings).1.settings.inspect) ::
        ((newSettings.filter (fun e => decide (e.1 ∈ s.settings.types.map Prod.fst))).map
          (fun e => ("settings change:" ++ e.1, Payload.value (s.settings.coerce e.1 e.2)))) := by
  obtain ⟨_, c2, _, _, c5, _⟩ := onSetSettings_of_changed s newSettings h
  rw [c5, c2, coercedSettings_of_nodup s.settings newSettings hn, List.map_map]
  rfl

/-- Witness of C14 as amended: a write of one changed and one unrecognized
field on the sample socket. -/
theorem setSettings_fires_written_fields_witness :
    (Socket.sample.onSetSettings
        [("bogus", .num 1), ("messagesPerInterval", .str "5")]).2.2.fired =
      ("settings change", Payload.settings
        (Socket.sample.onSetSettings
          [("bogus", .num 1), ("messagesPerInterval", .str "5")]).1.settings.inspect) ::
        (([("bogus", JVal.num 1), ("messagesPerInterval", JVal.str "5")].filter
            (fun e => decide (e.1 ∈ Socket.sample.settings.types.map Prod.fst))).map
          (fun e => ("settings change:" ++ e.1,
            Payload.value (Socket.sample.settings.coerce e.1 e.2)))) :=
  setSettings_fires_written_fields Socket.sample
    [("bogus", .num 1), ("messagesPerInterval", .str "5")] (by decide) (by decide)

/-- C15: a `set settings` write leaves unchanged every setting whose name is
not both a key of the payload and a recognized key, and it leaves the
message list and the coercion table alone; a payload made only of
unrecognized keys acknowledges false, changes nothing, fires no event and
emits nothing. -/
theorem setSettings_frame (s : Socket) (newSettings : JObject) :
    (∀ k, ¬ (k ∈ newSettings.map Prod.fst ∧ k ∈ s.settings.types.map Prod.fst) →
      (s.onSetSettings newSettings).1.settings.get k = s.settings.get k) ∧
    (s.onSetSettings newSettings).1.settings.types = s.settings.types ∧
    (s.onSetSettings newSettings).1.messages = s.messages ∧
    ((∀ e ∈ newSettings, e.1 ∉ s.settings.types.map Prod.fst) →
      s.onSetSettings newSettings = (s, .ack (.bool false), Effects.none)) := by
  cases h : Socket.hasChanged s.settings (Socket.coercedSettings s.settings newSettings) with
  | false =>
    rw [onSetSettings_of_unchanged s newSettings h]
    exact ⟨fun _ _ => rfl, rfl, rfl, fun _ => rfl⟩
  | true =>
    obtain ⟨_, c2, c3, _⟩ := onSetSettings_of_changed s newSettings h
    refine ⟨?_, ?_, c3, ?_⟩
    · intro k hk
      rw [c2]
      simp only [Settings.get]
      apply get_assign_of_not_mem
      intro hmem
      exact hk (mem_keys_coercedSettings s.settings newSettings k hmem)
    · rw [c2]
    · intro hall
      exfalso
      have hnil : Socket.coercedSettings s.settings newSettings = [] := by
        cases hc : Socket.coercedSettings s.settings newSettings with
        | nil => rfl
        | cons e rest =>
          have hmem : e.1 ∈ (Socket.coercedSettings s.settings newSettings).map Prod.fst := by
            rw [hc]
            simp
          obtain ⟨h1, h2⟩ := mem_keys_coercedSettings s.settings newSettings e.1 hmem
          obtain ⟨e', he', hk⟩ := List.mem_map.mp h1
          exact absurd (hk ▸ h2) (hall e' he')
      rw [hnil] at h
      simp [Socket.hasChanged] at h

/-- Witness of C15: a payload of unrecognized keys only, and one that also
writes the unrecognized `secret`, on the sample socket. -/
theorem setSettings_frame_witness :
    Socket.sample.onSetSettings [("bogus", .num 1), ("secret", .str "mine")] =
      (Socket.sample, .ack (.bool false), Effects.none) ∧
    (Socket.sample.onSetSettings
        [("secret", .str "mine"), ("maxMessageLength", .num 80)]).1.settings.get "secret" =
      Socket.sample.settings.get "secret" :=
  ⟨(setSettings_frame Socket.sample [("bogus", .num 1), ("secret", .str "mine")]).2.2.2
      (by decide),
   (setSettings_frame Socket.sample
      [("secret", .str "mine"), ("maxMessageLength", .num 80)]).1 "secret" (by decide)⟩

/-- C16, the code at the failing input: a write of `messagesIntervalLength:
'5'` on the sample socket changes the setting from 1000 to 5, but no
listener is registered for that field, so the limiter stays the one it was,
with interval length 1000. The sibling field `messagesPerInterval` has a
listener: its write replaces the limiter by `updatePerTimeframe` of the
previous one, entries kept. -/
theorem interval_length_write_misses_limiter :
    (Socket.sampleSpent.onSetSettings [("messagesIntervalLength", .str "5")]).2.1 =
      .ack (.bool true) ∧
    (Socket.sampleSpent.onSetSettings
        [("messagesIntervalLength", .str "5")]).1.settings.get "messagesIntervalLength" =
      .num 5 ∧
    (Socket.sampleSpent.onSetSettings [("messagesIntervalLength", .str "5")]).2.2.calls = [] ∧
    (Socket.sampleSpent.onSetSettings [("messagesIntervalLength", .str "5")]).1.rateLimiter =
      Socket.sampleSpent.rateLimiter ∧
    (Socket.sampleSpent.onSetSettings
        [("messagesIntervalLength", .str "5")]).1.rateLimiter.intervalLength = .num 1000 ∧
    (Socket.sampleSpent.onSetSettings [("messagesPerInterval", .str "5")]).1.rateLimiter =
      Socket.sampleSpent.rateLimiter.updatePerTimeframe (.num 5) ∧
    (Socket.sampleSpent.onSetSettings [("messagesPerInterval", .str "5")]).1.rateLimiter =
      { intervalLength := .num 1000, quota := .num 5,
        entries := [{ identity := some "u1", windowStart := 5, count := 1 }] } := by
  decide

/-! ## Cookies of the handshake -/

theorem separator_present_of_hasSeparator (l : List Char) (h : hasSeparator l = true) :
    [';', ' '] <:+: l := by
  induction l with
  | nil => simp [hasSeparator] at h
  | cons c q ih =>
    cases q with
    | nil => simp [hasSeparator] at h
    | cons d rest =>
      simp only [hasSeparator, Bool.or_eq_true, decide_eq_true_eq] at h
      rcases h with ⟨hc, hd⟩ | h
      · subst hc
        subst hd
        exact ⟨[], rest, rfl⟩
      · obtain ⟨a, b, hab⟩ := ih h
        exact ⟨c :: a, b, by rw [← hab]; rfl⟩

theorem hasSeparator_false_of_absent (l : List Char) (h : ¬ [';', ' '] <:+: l) :
    hasSeparator l = false := by
  cases hs : hasSeparator l with
  | false => rfl
  | true => exact absurd (separator_present_of_hasSeparator l hs) h

theorem hasSeparator_cons_cons (c d : Char) (rest : List Char) :
    hasSeparator (c :: d :: rest) =
      (decide (c = ';' ∧ d = ' ') || hasSeparator (d :: rest)) := rfl

theorem splitSemicolonSpace_cons_cons (c d : Char) (rest : List Char) :
    splitSemicolonSpace (c :: d :: rest) =
      if c = ';' ∧ d = ' ' then [] :: splitSemicolonSpace rest
      else consHead c (splitSemicolonSpace (d :: rest)) := rfl

theorem splitEquals_cons (c : Char) (rest : List Char) :
    splitEquals (c :: rest) =
      if c = '=' then [] :: splitEquals rest else consHead c (splitEquals rest) := rfl

theorem hasSeparator_cons_false (c d : Char) (rest : List Char)
    (h : hasSeparator (c :: d :: rest) = false) :
    ¬ (c = ';' ∧ d = ' ') ∧ hasSeparator (d :: rest) = false := by
  rw [hasSeparator_cons_cons, Bool.or_eq_false_iff, decide_eq_false_iff_not] at h
  exact h

theorem hasSeparator_piece (k v : List Char) (hk : hasSeparator k = false)
    (hv : hasSeparator v = false) : hasSeparator (k ++ '=' :: v) = false := by
  induction k with
  | nil =>
    cases v with
    | nil => rfl
    | cons d rest =>
      rw [List.nil_append, hasSeparator_cons_cons, hv, Bool.or_false,
        decide_eq_false_iff_not]
      exact fun h => absurd h.1 (by decide)
  | cons c q ih =>
    cases q with
    | nil =>
      have hq := ih rfl
      rw [List.nil_append] at hq
      rw [List.cons_append, List.nil_append, hasSeparator_cons_cons, hq, Bool.or_false,
        decide_eq_false_iff_not]
      exact fun h => absurd h.2 (by decide)
    | cons d rest =>
      obtain ⟨h1, h2⟩ := hasSeparator_cons_false c d rest hk
      have hq := ih h2
      rw [List.cons_append] at hq
      rw [List.cons_append, List.cons_append, hasSeparator_cons_cons, hq, Bool.or_false,
        decide_eq_false_iff_not]
      exact h1

theorem split_without_separator (p : List Char) (h : hasSeparator p = false) :
    splitSemicolonSpace p = [p] := by
  induction p with
  | nil => rfl
  | cons c q ih =>
    cases q with
    | nil => rfl
    | cons d rest =>
      obtain ⟨h1, h2⟩ := hasSeparator_cons_false c d rest h
      rw [splitSemicolonSpace_cons_cons, if_neg h1, ih h2]
      rfl

theorem split_piece_separator (p tail : List Char) (h : hasSeparator p = false) :
    splitSemicolonSpace (p ++ ';' :: ' ' :: tail) = p :: splitSemicolonSpace tail := by
  induction p with
  | nil =>
    rw [List.nil_append, splitSemicolonSpace_cons_cons, if_pos ⟨rfl, rfl⟩]
  | cons c q ih =>
    cases q with
    | nil =>
      have hq := ih rfl
      rw [List.nil_append] at hq
      rw [List.cons_append, List.nil_append, splitSemicolonSpace_cons_cons,
        if_neg (fun hh => absurd hh.2 (by decide)), hq]
      rfl
    | cons d rest =>
      obtain ⟨h1, h2⟩ := hasSeparator_cons_false c d rest h
      have hq := ih h2
      rw [List.cons_append] at hq
      rw [List.cons_append, List.cons_append, splitSemicolonSpace_cons_cons, if_neg h1, hq]
      rfl

theorem split_cookieHeaderChars (pairs : List (String × String)) (hne : pairs ≠ [])
    (h : ∀ p ∈ pairs, hasSeparator (p.1.data ++ '=' :: p.2.data) = false) :
    splitSemicolonSpace (cookieHeaderChars pairs) =
      pairs.map (fun p => p.1.data ++ '=' :: p.2.data) := by
  induction pairs with
  | nil => exact absurd rfl hne
  | cons p q ih =>
    cases q with
    | nil =>
      simp only [cookieHeaderChars, List.map_cons, List.map_nil]
      exact split_without_separator _ (h p (List.mem_cons_self _ _))
    | cons r rest =>
      simp only [cookieHeaderChars, List.map_cons]
      rw [split_piece_separator _ _ (h p (List.mem_cons_self _ _))]
      have := ih (by simp) (fun x hx => h x (List.mem_cons_of_mem _ hx))
      simp only [List.map_cons] at this
      rw [this]

theorem splitEquals_ne_nil (l : List Char) : splitEquals l ≠ [] := by
  cases l with
  | nil => simp [splitEquals]
  | cons c rest =>
    rw [splitEquals_cons]
    split
    · simp
    · cases splitEquals rest <;> simp [consHead]

theorem joinEquals_consHead (c : Char) (l : List (List Char)) (h : l ≠ []) :
    joinEquals (consHead c l) = c :: joinEquals l := by
  cases l with
  | nil => exact absurd rfl h
  | cons p ps =>
    cases ps with
    | nil => rfl
    | cons q rest => rfl

theorem joinEquals_splitEquals (v : List Char) : joinEquals (splitEquals v) = v := by
  induction v with
  | nil => rfl
  | cons c rest ih =>
    rw [splitEquals_cons]
    by_cases hc : c = '='
    · rw [if_pos hc, hc]
      cases hs : splitEquals rest with
      | nil => exact absurd hs (splitEquals_ne_nil rest)
      | cons p ps =>
        rw [hs] at ih
        simp only [joinEquals, List.nil_append, ih]
    · rw [if_neg hc, joinEquals_consHead c _ (splitEquals_ne_nil rest), ih]

theorem splitEquals_piece (k v : List Char) (hk : '=' ∉ k) :
    splitEquals (k ++ '=' :: v) = k :: splitEquals v := by
  induction k with
  | nil =>
    rw [List.nil_append, splitEquals_cons, if_pos rfl]
  | cons c q ih =>
    simp only [List.mem_cons, not_or] at hk
    rw [List.cons_append, splitEquals_cons, if_neg (fun h => hk.1 h.symm), ih hk.2]
    rfl

theorem cookieEntry_piece (p : String × String) (hk : '=' ∉ p.1.data) :
    cookieEntry (p.1.data ++ '=' :: p.2.data) = cookiePair p := by
  unfold cookieEntry
  rw [splitEquals_piece _ _ hk]
  simp only [joinEquals_splitEquals]
  rfl

theorem foldl_cookies (entries : List (String × JVal))
    (h : ∀ e ∈ entries, e.1 ≠ "__proto__") :
    ∀ acc : JObject,
      entries.foldl
          (fun acc e => if e.1 = "__proto__" then acc else JObject.assign acc [(e.1, e.2)]) acc =
        JObject.assign acc entries := by
  induction entries with
  | nil => intro acc; rfl
  | cons e rest ih =>
    intro acc
    have hstep : JObject.assign acc (e :: rest) =
        JObject.assign (JObject.set acc e.1 e.2) rest := rfl
    rw [List.foldl_cons, if_neg (h e (List.mem_cons_self _ _)), hstep,
      ih (fun x hx => h x (List.mem_cons_of_mem _ hx))]
    rfl

theorem getCookies_cookieHeader (pairs : List (String × String)) (hne : pairs ≠ [])
    (hkey : ∀ p ∈ pairs, '=' ∉ p.1.data)
    (hsep : ∀ p ∈ pairs, hasSeparator (p.1.data ++ '=' :: p.2.data) = false)
    (hproto : ∀ p ∈ pairs, p.1 ≠ "__proto__") :
    Socket.getCookies (some (cookieHeader pairs)) =
      JObject.assign [] (pairs.map cookiePair) := by
  have hmap : (pairs.map (fun p => p.1.data ++ '=' :: p.2.data)).map cookieEntry =
      pairs.map cookiePair := by
    rw [List.map_map]
    apply List.map_congr_left
    intro p hp
    exact cookieEntry_piece p (hkey p hp)
  have hentries : ∀ e ∈ pairs.map cookiePair, e.1 ≠ "__proto__" := by
    intro e he
    obtain ⟨p, hp, rfl⟩ := List.mem_map.mp he
    exact hproto p hp
  simp only [Socket.getCookies, Option.getD_some, cookieHeader]
  rw [split_cookieHeaderChars pairs hne hsep, hmap]
  exact foldl_cookies _ hentries []

theorem get_append (a b : JObject) (k : String) :
    JObject.get (a ++ b) k = if k ∈ a.map Prod.fst then JObject.get a k else JObject.get b k := by
  induction a with
  | nil => simp
  | cons e rest ih =>
    obtain ⟨k', v'⟩ := e
    by_cases hk : k' = k
    · subst hk
      simp [JObject.get]
    · have hb : ((k' == k) = false) := by simpa using hk
      have hne : ¬ k = k' := fun h => hk h.symm
      simp only [JObject.get, List.cons_append, List.find?_cons, hb, List.map_cons,
        List.mem_cons, hne, false_or] at ih ⊢
      exact ih

theorem get_assign_last (source : JObject) (k : String) :
    ∀ target : JObject,
      (JObject.assign target source).get k =
        if k ∈ source.map Prod.fst then JObject.get source.reverse k else target.get k := by
  induction source with
  | nil => intro target; simp [JObject.assign]
  | cons e rest ih =>
    intro target
    have hstep : JObject.assign target (e :: rest) =
        JObject.assign (JObject.set target e.1 e.2) rest := rfl
    rw [hstep, ih, List.reverse_cons, get_append]
    have hrev : k ∈ rest.reverse.map Prod.fst ↔ k ∈ rest.map Prod.fst := by
      rw [List.map_reverse]
      simp
    by_cases hr : k ∈ rest.map Prod.fst
    · have hin : k ∈ (e :: rest).map Prod.fst := by
        rw [List.map_cons]
        exact List.mem_cons_of_mem _ hr
      rw [if_pos hr, if_pos hin, if_pos (hrev.mpr hr)]
    · rw [if_neg hr, if_neg (fun h => hr (hrev.mp h))]
      by_cases hk : k = e.1
      · subst hk
        have hin : e.1 ∈ (e :: rest).map Prod.fst := by
          rw [List.map_cons]
          exact List.mem_cons_self _ _
        rw [if_pos hin, get_set_self]
        simp [JObject.get]
      · have hnm : k ∉ (e :: rest).map Prod.fst := by
          simp only [List.map_cons, List.mem_cons, not_or]
          exact ⟨hk, hr⟩
        rw [if_neg hnm, get_set_other _ _ _ _ hk]

theorem mem_keys_set_of (o : JObject) (k k' : String) (v : JVal)
    (h : k ∈ o.map Prod.fst ∨ k = k') : k ∈ (JObject.set o k' v).map Prod.fst := by
  induction o with
  | nil =>
    rcases h with h | h
    · simp at h
    · simp [JObject.set, h]
  | cons e rest ih =>
    obtain ⟨k₁, v₁⟩ := e
    simp only [JObject.set]
    by_cases hk : k₁ = k'
    · rw [if_pos hk]
      rcases h with h | h
      · exact h
      · simp [h, hk]
    · rw [if_neg hk]
      simp only [List.map_cons, List.mem_cons] at h ⊢
      rcases h with (h | h) | h
      · exact Or.inl h
      · exact Or.inr (ih (Or.inl h))
      · exact Or.inr (ih (Or.inr h))

theorem mem_keys_assign_of (source : JObject) (k : String) :
    ∀ target : JObject, k ∈ target.map Prod.fst ∨ k ∈ source.map Prod.fst →
      k ∈ (JObject.assign target source).map Prod.fst := by
  induction source with
  | nil =>
    intro target h
    rcases h with h | h
    · exact h
    · simp at h
  | cons e rest ih =>
    intro target h
    have hstep : JObject.assign target (e :: rest) =
        JObject.assign (JObject.set target e.1 e.2) rest := rfl
    rw [hstep]
    apply ih
    simp only [List.map_cons, List.mem_cons] at h
    rcases h with h | h | h
    · exact Or.inl (mem_keys_set_of _ _ _ _ (Or.inl h))
    · exact Or.inl (mem_keys_set_of _ _ _ _ (Or.inr h))
    · exact Or.inr h

/-- C20, as stated, fails: the single pair `__proto__`, `x` meets every
condition of the claim, its header is `__proto__=x`, and `getCookies` returns
an object without any property: the key goes to the setter inherited from
`Object.prototype` and is not stored. -/
theorem getCookies_drops_proto :
    ([("__proto__", "x")] : List (String × String)) ≠ [] ∧
    (∀ p ∈ ([("__proto__", "x")] : List (String × String)),
      '=' ∉ p.1.data ∧ ¬ [';', ' '] <:+: p.1.data ∧ ¬ [';', ' '] <:+: p.2.data) ∧
    cookieHeader [("__proto__", "x")] = "__proto__=x" ∧
    Socket.getCookies (some (cookieHeader [("__proto__", "x")])) = [] ∧
    "__proto__" ∉ (Socket.getCookies (some (cookieHeader [("__proto__", "x")]))).map Prod.fst := by
  decide

/-- C20, amended: for a non-empty list of pairs in which no key is
`__proto__`, no key contains `=` and no key or value contains `; `,
`getCookies` on the header `k1=v1; k2=v2; ...` returns an object whose own
keys are the keys of the pairs and in which each of these keys reads as the
whole value of its last occurrence, any `=` inside the value included; with
pairwise distinct keys each key reads as its own value. -/
theorem getCookies_returns_pairs (pairs : List (String × String)) (hne : pairs ≠ [])
    (hproto : ∀ p ∈ pairs, p.1 ≠ "__proto__")
    (hkey : ∀ p ∈ pairs, '=' ∉ p.1.data)
    (hsep : ∀ p ∈ pairs, ¬ [';', ' '] <:+: p.1.data ∧ ¬ [';', ' '] <:+: p.2.data) :
    (∀ k, k ∈ (Socket.getCookies (some (cookieHeader pairs))).map Prod.fst ↔
      k ∈ pairs.map Prod.fst) ∧
    (∀ p ∈ pairs, (Socket.getCookies (some (cookieHeader pairs))).get p.1 =
      JObject.get (pairs.map cookiePair).reverse p.1) ∧
    ((pairs.map Prod.fst).Nodup →
      ∀ p ∈ pairs, (Socket.getCookies (some (cookieHeader pairs))).get p.1 = .str p.2) := by
  have hs : ∀ p ∈ pairs, hasSeparator (p.1.data ++ '=' :: p.2.data) = false := fun p hp =>
    hasSeparator_piece _ _ (hasSeparator_false_of_absent _ (hsep p hp).1)
      (hasSeparator_false_of_absent _ (hsep p hp).2)
  have hkeys : (pairs.map cookiePair).map Prod.fst = pairs.map Prod.fst := by
    rw [List.map_map]
    rfl
  rw [getCookies_cookieHeader pairs hne hkey hs hproto]
  refine ⟨?_, ?_, ?_⟩
  · intro k
    constructor
    · intro h
      rcases mem_keys_assign _ k [] h with h' | h'
      · simp at h'
      · rwa [hkeys] at h'
    · intro h
      exact mem_keys_assign_of _ k [] (Or.inr (by rwa [hkeys]))
  · intro p hp
    have hk : p.1 ∈ (pairs.map cookiePair).map Prod.fst := by
      rw [hkeys]
      exact List.mem_map_of_mem Prod.fst hp
    rw [get_assign_last, if_pos hk]
  · intro hn p hp
    apply get_assign_of_mem _ [] p.1 (.str p.2)
    · rwa [hkeys]
    · exact List.mem_map_of_mem cookiePair hp

/-- Witness of C20 as amended: an identity and a token that holds `=`
characters. -/
theorem getCookies_returns_pairs_witness :
    cookieHeader [("id", "u1"), ("auth", "a.b=c==")] = "id=u1; auth=a.b=c==" ∧
    (Socket.getCookies (some "id=u1; auth=a.b=c==")).get "auth" = .str "a.b=c==" ∧
    (Socket.getCookies (some "id=u1; auth=a.b=c==")).get "id" = .str "u1" := by
  have h := getCookies_returns_pairs [("id", "u1"), ("auth", "a.b=c==")] (by decide)
    (by decide) (by decide) (by decide)
  have hh : cookieHeader [("id", "u1"), ("auth", "a.b=c==")] = "id=u1; auth=a.b=c==" := by
    decide
  rw [hh] at h
  exact ⟨hh, h.2.2 (by decide) ("auth", "a.b=c==") (by decide),
    h.2.2 (by decide) ("id", "u1") (by decide)⟩

theorem dispatch_without_listener (s : Socket) (event : String) (data : Payload) :
    (s.dispatch [] event data).1 = s := rfl

theorem fireKeys_without_listener (settings : JObject) (keys : List String) (s : Socket)
    (h : ∀ key ∈ keys, s.listeners ("settings change:" ++ key) = []) :
    (s.fireKeys settings keys).1 = s := by
  induction keys with
  | nil => rfl
  | cons key rest ih =>
    simp only [Socket.fireKeys, event_of_plain s _ _ (settings_change_key_plain key),
      h key (List.mem_cons_self _ _), dispatch_without_listener]
    exact ih (fun k hk => h k (List.mem_cons_of_mem _ hk))

theorem append_left_cancel_string (a b c : String) (h : a ++ b = a ++ c) : b = c := by
  have hd := congrArg String.data h
  simp only [String.data_append] at hd
  exact String.ext (List.append_cancel_left hd)

theorem setSettings_without_quota_key (s : Socket) (newSettings : JObject)
    (hev : s.events = [("settings change:messagesPerInterval", [Listener.updateRateLimiter])])
    (hk : "messagesPerInterval" ∉ newSettings.map Prod.fst) :
    (s.onSetSettings newSettings).1.rateLimiter = s.rateLimiter := by
  cases h : Socket.hasChanged s.settings (Socket.coercedSettings s.settings newSettings) with
  | false => rw [onSetSettings_of_unchanged s newSettings h]
  | true =>
    have hgen : ∀ s1 : Socket, s1.events = s.events → s1.listeners "settings change" = [] := by
      intro s1 he
      simp only [Socket.listeners, he, hev]
      decide
    have hkeys : ∀ s1 : Socket, s1.events = s.events →
        ∀ key ∈ (Socket.coercedSettings s.settings newSettings).map (fun e => e.1),
          s1.listeners ("settings change:" ++ key) = [] := by
      intro s1 he key hkey
      have hne : key ≠ "messagesPerInterval" := by
        intro heq
        apply hk
        rw [← heq]
        exact (mem_keys_coercedSettings s.settings newSettings key hkey).1
      have hname : ("settings change:messagesPerInterval" == "settings change:" ++ key) = false := by
        rw [beq_eq_false_iff_ne]
        intro heq
        exact hne (append_left_cancel_string "settings change:" key "messagesPerInterval"
          heq.symm)
      simp only [Socket.listeners, he, hev, List.find?_cons, hname, List.find?_nil]
    have hraise : ∀ (x : Socket) (o : JObject) (l : List String), (x.fireKeys o l).2.2 = false :=
      fun x o l => (fireKeys_settings o l x).2.2.2.2.2
    have hfinal : ∀ s1 : Socket, s1.events = s.events →
        ((s1.dispatch (s1.listeners "settings change") "settings change"
            (.settings s1.settings.inspect)).1.fireKeys
          (Socket.coercedSettings s.settings newSettings)
          ((Socket.coercedSettings s.settings newSettings).map (fun e => e.1))).1 = s1 := by
      intro s1 he
      rw [hgen s1 he, dispatch_without_listener,
        fireKeys_without_listener _ _ _ (hkeys s1 he)]
    unfold Socket.onSetSettings
    simp only [h, Bool.not_true, Bool.false_eq_true, if_false,
      event_of_plain _ _ _ settings_change_plain, hraise]
    have hlimiter := congrArg Socket.rateLimiter
      (hfinal { s with settings := { s.settings with
        _args := JObject.assign s.settings._args
          (Socket.coercedSettings s.settings newSettings) } } rfl)
    exact hlimiter

theorem new_events (settings : Settings) (w : World) :
    (Socket.new settings w).events =
      [("settings change:messagesPerInterval", [Listener.updateRateLimiter])] := rfl

end KSET
